import Mathlib

/-!
Shallow embedding of the Kitfile generation logic
(`pkg/lib/kitfile/generate.go`) and proofs about it.

The filesystem, the default-Kitfile-name predicate and the license
classifier are external capabilities; they are modelled as explicit
parameters (directory listings as data, `stat` as a function, the license
classification result carried on the file entry).
-/

namespace KitGen

/-- Go `strings.HasSuffix`, expressed over the character sequence. -/
def goEndsWith (s suffix : String) : Bool :=
  suffix.data.isSuffixOf s.data

/-- Go `strings.HasPrefix`, expressed over the character sequence. -/
def goStartsWith (s pre : String) : Bool :=
  pre.data.isPrefixOf s.data

/-- ASCII lower-casing of one character (the only case mapping the
filenames handled here need). -/
def lowerChar (c : Char) : Char :=
  if 'A' ≤ c ∧ c ≤ 'Z' then Char.ofNat (c.toNat + 32) else c

/-- Go `strings.ToLower`, restricted to the ASCII case mapping. -/
def goToLower (s : String) : String :=
  String.mk (s.data.map lowerChar)

/-- Go `strings.TrimSuffix`: drops `suffix` from the end of `s` when present. -/
def goTrimSuffix (s suffix : String) : String :=
  if goEndsWith s suffix then
    String.mk (s.data.take (s.data.length - suffix.data.length))
  else s

/-- Go `path/filepath.Ext`: scans the path backwards until a separator; if a
dot is found first, the extension runs from that dot, otherwise it is
empty. -/
def goExt (p : String) : String :=
  let elemRev := p.data.reverse.takeWhile (fun c => c ≠ '/')
  if elemRev.contains '.' then
    String.mk ('.' :: (elemRev.takeWhile (fun c => c ≠ '.')).reverse)
  else ""

/-- Go `path/filepath.Base`: the last element of the path, after dropping
trailing slashes; "." for the empty path, "/" when everything is slashes. -/
def goBase (p : String) : String :=
  if p.data.isEmpty then "." else
  let cs := p.data.reverse.dropWhile (fun c => c = '/')
  if cs.isEmpty then "/" else
  String.mk (cs.takeWhile (fun c => c ≠ '/')).reverse

/-- Go `path/filepath.Join` on two non-empty relative path elements
(the cleaning step is a no-op for the simple names produced here). -/
def goJoin (a b : String) : String :=
  if a = "" then b else if b = "" then a else a ++ "/" ++ b

/-- Two's-complement wrap-around of Go `int64` addition results. -/
def wrap64 (x : Int) : Int :=
  (x + 9223372036854775808) % 18446744073709551616 - 9223372036854775808

/-- The `fileType` enumeration of generate.go (iota order preserved). -/
inductive fileType where
  | model
  | dataset
  | code
  | docs
  | metadata
  | unknown
deriving DecidableEq, Repr

/-- The iota order `fileTypeModel .. fileTypeUnknown`, used where the Go code
iterates over the contents array indexed by the enumeration value. -/
def fileTypeOrder : List fileType :=
  [.model, .dataset, .code, .docs, .metadata, .unknown]

def modelWeightsSuffixes : List String :=
  [".safetensors", ".pkl", ".joblib",
   ".bin", ".pth", ".pt", ".mar", ".pt2", ".ptl",
   ".pb", ".ckpt", ".tflite", ".tfrecords",
   ".npy", ".npz",
   ".keras", ".h5", ".caffemodel", ".pmml", ".coreml",
   ".gguf", ".ggml", ".ggmf", ".llamafile", ".onnx"]

def docsSuffixes : List String :=
  [".md", ".adoc", ".html", ".pdf"]

def metadataSuffixes : List String :=
  [".json", ".yaml", ".xml", ".txt"]

def datasetSuffixes : List String :=
  [".tar", ".zip", ".parquet", ".csv"]

/-- `anySuffix` of generate.go: does any entry of `suffixes` end `query`? -/
def anySuffix (query : String) (suffixes : List String) : Bool :=
  suffixes.any (fun suffix => goEndsWith query suffix)

/-- `determineFileType` of generate.go. -/
def determineFileType (filename : String) : fileType :=
  if anySuffix filename modelWeightsSuffixes then .model
  else if anySuffix filename metadataSuffixes then .metadata
  else if anySuffix filename docsSuffixes then .docs
  else if anySuffix filename datasetSuffixes then .dataset
  else .unknown

/-- Modelled from the spec: the `artifact.Package` struct (package name,
description and license, all optional) lives outside the given sources. -/
structure Package where
  Name : String := ""
  Description : String := ""
  License : String := ""
deriving DecidableEq, Repr

/-- Modelled from the spec: an `artifact.ModelPart` is just a path here. -/
structure ModelPart where
  Path : String := ""
deriving DecidableEq, Repr

/-- Modelled from the spec: the `artifact.Model` struct (path, derived
display name, optional license, ordered parts). -/
structure Model where
  Path : String := ""
  Name : String := ""
  License : String := ""
  Parts : List ModelPart := []
deriving DecidableEq, Repr

/-- Modelled from the spec: an `artifact.DataSet` entry (path plus license). -/
structure DataSet where
  Path : String := ""
  License : String := ""
deriving DecidableEq, Repr

/-- Modelled from the spec: an `artifact.Docs` entry (path plus description). -/
structure Docs where
  Path : String := ""
  Description : String := ""
deriving DecidableEq, Repr

/-- Modelled from the spec: an `artifact.Code` entry (path plus license). -/
structure Code where
  Path : String := ""
  License : String := ""
deriving DecidableEq, Repr

/-- Modelled from the spec: the `artifact.KitFile` manifest object. -/
structure KitFile where
  ManifestVersion : String := ""
  Package : Package := {}
  Code : List Code := []
  DataSets : List DataSet := []
  Docs : List Docs := []
  Model : Option Model := none
deriving DecidableEq, Repr

/-- An immediate child of a subdirectory, as returned by `os.ReadDir`. -/
structure SubEntry where
  name : String
  isDir : Bool
deriving DecidableEq, Repr

/-- An immediate child of the root directory. A file entry carries the result
the license classifier would give for it (`none` models a detection failure,
which the Go code converts to the empty string); a directory entry carries
its own listing, `none` modelling a read error. -/
inductive RootKind where
  | file (licenseResult : Option String)
  | dir (listing : Option (List SubEntry))
deriving DecidableEq, Repr

structure RootEntry where
  name : String
  kind : RootKind
deriving DecidableEq, Repr

/-- The six per-category path buckets (`directoryContents` in generate.go),
indexed by `fileType` instead of by the iota integer value. -/
structure Buckets where
  model : List String := []
  dataset : List String := []
  code : List String := []
  docs : List String := []
  metadata : List String := []
  unknown : List String := []
deriving DecidableEq, Repr

def Buckets.get (b : Buckets) : fileType → List String
  | .model => b.model
  | .dataset => b.dataset
  | .code => b.code
  | .docs => b.docs
  | .metadata => b.metadata
  | .unknown => b.unknown

def Buckets.add (b : Buckets) (t : fileType) (p : String) : Buckets :=
  match t with
  | .model => { b with model := b.model ++ [p] }
  | .dataset => { b with dataset := b.dataset ++ [p] }
  | .code => { b with code := b.code ++ [p] }
  | .docs => { b with docs := b.docs ++ [p] }
  | .metadata => { b with metadata := b.metadata ++ [p] }
  | .unknown => { b with unknown := b.unknown ++ [p] }

/-- Classification applied to a child of a subdirectory: nested directories
are bucketed as `unknown` without recursing, files go through
`determineFileType`. -/
def childType (e : SubEntry) : fileType :=
  if e.isDir then .unknown else determineFileType e.name

/-- The per-child accumulation loop of `addDirToKitfile`: collects the
model-suffixed file paths (in encounter order) and fills the buckets. -/
def dirScanStep (dirPath : String) (st : List String × Buckets) (e : SubEntry) :
    List String × Buckets :=
  let relPath := goJoin dirPath e.name
  if e.isDir then
    (st.1, st.2.add .unknown relPath)
  else
    let ft := determineFileType e.name
    let mf := if ft = .model then st.1 ++ [relPath] else st.1
    (mf, st.2.add ft relPath)

/-- The reduction loop of `addDirToKitfile`: walks the buckets in iota order,
tracking the last active non-metadata category and whether a second active
category was seen (`directoryHasMixedContents`). -/
def reduceStep (b : Buckets) (st : fileType × Bool) (t : fileType) :
    fileType × Bool :=
  if 0 < (b.get t).length ∧ t ≠ .metadata then
    (t, st.2 || decide (st.1 ≠ .unknown))
  else st

/-- `addDirToKitfile` of generate.go. Returns the updated manifest, the model
candidate paths handed back to the caller, and the error (`none` on
success; the Go error messages are kept as the error values). `listing` is
the result of `os.ReadDir` on the subdirectory, `none` meaning a read
error. -/
def addDirToKitfile (kf : KitFile) (dirPath : String)
    (listing : Option (List SubEntry)) : KitFile × List String × Option String :=
  if dirPath = "docs" then
    ({ kf with Docs := kf.Docs ++ [{ Path := dirPath }] }, [], none)
  else if dirPath = "src" ∨ dirPath = "pkg" ∨ dirPath = "lib" ∨ dirPath = "build" then
    ({ kf with Code := kf.Code ++ [{ Path := dirPath }] }, [], none)
  else
    match listing with
    | none => (kf, [], some "failed to read directory")
    | some entries =>
      let scanned := entries.foldl (dirScanStep dirPath) ([], {})
      let modelFiles := scanned.1
      let contents := scanned.2
      let reduced := fileTypeOrder.foldl (reduceStep contents) (.unknown, false)
      if reduced.2 then
        (kf, modelFiles, some "mixed content in directory; unable to determine type")
      else
        match reduced.1 with
        | .model => (kf, modelFiles ++ contents.metadata, none)
        | .dataset =>
          ({ kf with DataSets := kf.DataSets ++ [{ Path := dirPath }] }, modelFiles, none)
        | .docs =>
          ({ kf with Docs := kf.Docs ++ [{ Path := dirPath }] }, modelFiles, none)
        | _ => (kf, modelFiles, some "directory should be handled as Code")

/-- The stat loop of `addModelToKitfile`: tracks the largest file seen so far
(strictly-greater updates, so the first of several equally-large files
wins), its size, and the running size total (wrapped like Go `int64`
addition). Fails at the first path `stat` cannot resolve. -/
def modelScan (stat : String → Option Int) :
    List String → String × Int × Int → Option (String × Int × Int)
  | [], st => some st
  | p :: rest, (lf, ls, acc) =>
    match stat p with
    | none => none
    | some size =>
      let next := if size > ls then (p, size) else (lf, ls)
      modelScan stat rest (next.1, next.2, wrap64 (acc + size))

/-- `addModelToKitfile` of generate.go. `stat` models `os.Stat(...).Size()`
on paths relative to the base directory; `none` is a stat failure. -/
def addModelToKitfile (stat : String → Option Int) (kf : KitFile)
    (modelPaths : List String) : Option KitFile :=
  match modelPaths with
  | [] => some kf
  | [p] =>
    let filename := goBase p
    some { kf with Model := some { Path := p, Name := goTrimSuffix filename (goExt filename) } }
  | p₀ :: rest =>
    match modelScan stat (p₀ :: rest) ("", 0, 0) with
    | none => none
    | some (largestFile, largestSize, total) =>
      let averageSize := Int.tdiv total (p₀ :: rest).length
      if largestSize > wrap64 (averageSize + Int.tdiv averageSize 2) then
        let m : Model :=
          { Path := largestFile,
            Name := goTrimSuffix largestFile (goExt largestFile),
            Parts := ((p₀ :: rest).filter (fun f => f ≠ largestFile)).map
              (fun f => { Path := f }) }
        some { kf with Model := some m }
      else
        let m : Model :=
          { Path := p₀, Parts := rest.map (fun f => { Path := f }) }
        some { kf with Model := some m }

/-- The accumulator state of the root pass in `GenerateKitfile`. -/
structure GenState where
  kf : KitFile
  includeCatchallSection : Bool := false
  unprocessedDirPaths : List String := []
  modelFiles : List String := []
  metadataPaths : List String := []
  detectedLicenseType : String := ""
deriving DecidableEq, Repr

/-- One iteration of the root loop of `GenerateKitfile`. `isKit` models
`constants.IsDefaultKitfileName`. -/
def processRootEntry (isKit : String → Bool) (st : GenState) (d : RootEntry) :
    GenState :=
  if isKit d.name then st else
  match d.kind with
  | .dir listing =>
    let res := addDirToKitfile st.kf d.name listing
    let unp := if res.2.2.isSome then st.unprocessedDirPaths ++ [d.name]
               else st.unprocessedDirPaths
    { st with kf := res.1, unprocessedDirPaths := unp,
              modelFiles := st.modelFiles ++ res.2.1 }
  | .file licenseResult =>
    if goStartsWith (goToLower d.name) "readme" then
      { st with kf := { st.kf with
          Docs := st.kf.Docs ++ [{ Path := d.name, Description := "Readme file" }] } }
    else if goStartsWith (goToLower d.name) "license" then
      let kf' := { st.kf with
          Docs := st.kf.Docs ++ [{ Path := d.name, Description := "License file" }] }
      { st with kf := kf', detectedLicenseType := licenseResult.getD "" }
    else
      match determineFileType d.name with
      | .model => { st with modelFiles := st.modelFiles ++ [d.name] }
      | .metadata => { st with metadataPaths := st.metadataPaths ++ [d.name] }
      | .docs => { st with kf := { st.kf with Docs := st.kf.Docs ++ [{ Path := d.name }] } }
      | .dataset =>
        { st with kf := { st.kf with DataSets := st.kf.DataSets ++ [{ Path := d.name }] } }
      | _ => { st with includeCatchallSection := true }

/-- The full root pass of `GenerateKitfile` over the listed entries. -/
def passState (isKit : String → Bool) (ds : List RootEntry)
    (packageOpt : Option Package) : GenState :=
  ds.foldl (processRootEntry isKit)
    { kf := { ManifestVersion := "1.0.0", Package := packageOpt.getD {} } }

/-- The model/metadata step after the root pass: run the Model Assembler when
candidates exist and append pending metadata files as model parts,
otherwise turn pending metadata files into dataset entries. The Go code
dereferences `kitfile.Model` unconditionally after a successful
`addModelToKitfile` with a non-empty candidate list; the impossible
`none` case is mapped to a failure. -/
def modelStage (stat : String → Option Int) (st : GenState) : Option KitFile :=
  if 0 < st.modelFiles.length then
    match addModelToKitfile stat st.kf st.modelFiles with
    | none => none
    | some kf =>
      match kf.Model with
      | none => none
      | some m =>
        let m' := { m with Parts := m.Parts ++ st.metadataPaths.map (fun p : String => ({ Path := p } : ModelPart)) }
        some { kf with Model := some m' }
  else
    some { st.kf with DataSets :=
      st.kf.DataSets ++ st.metadataPaths.map (fun p => { Path := p }) }

/-- The catch-all decision of `GenerateKitfile`: one Code entry for the root
itself, overwriting previous Code entries, or one Code entry per
unprocessed directory. -/
def catchallStage (st : GenState) (kf : KitFile) : KitFile :=
  if st.includeCatchallSection ∨ 5 < st.unprocessedDirPaths.length then
    { kf with Code := [{ Path := "." }] }
  else
    { kf with Code := kf.Code ++ st.unprocessedDirPaths.map (fun p => { Path := p }) }

/-- The license attachment step of `GenerateKitfile`. -/
def attachLicense (kf : KitFile) (lic : String) : KitFile :=
  if kf.Model.isSome ∧ lic ≠ "" then
    { kf with Model := kf.Model.map (fun m => { m with License := lic }) }
  else if kf.DataSets.length = 1 then
    let ds := match kf.DataSets with
      | d :: rest => { d with License := lic } :: rest
      | [] => []
    { kf with DataSets := ds }
  else if kf.Code.length = 1 then
    let cs := match kf.Code with
      | c :: rest => { c with License := lic } :: rest
      | [] => []
    { kf with Code := cs }
  else
    { kf with Package := { kf.Package with License := lic } }

/-- `GenerateKitfile` of generate.go. `rootListing` is the result of
`os.ReadDir` on the base directory (`none` = read error, the only fatal
error apart from a stat failure inside the Model Assembler). -/
def GenerateKitfile (isKit : String → Bool) (stat : String → Option Int)
    (rootListing : Option (List RootEntry)) (packageOpt : Option Package) :
    Option KitFile :=
  match rootListing with
  | none => none
  | some ds =>
    let st := passState isKit ds packageOpt
    match modelStage stat st with
    | none => none
    | some kf => some (attachLicense (catchallStage st kf) st.detectedLicenseType)

/-! ### Frame lemmas -/

theorem addModelToKitfile_frame {stat : String → Option Int} {kf kf' : KitFile}
    {mp : List String} (h : addModelToKitfile stat kf mp = some kf') :
    kf'.Code = kf.Code ∧ kf'.DataSets = kf.DataSets ∧ kf'.Docs = kf.Docs ∧
    kf'.Package = kf.Package ∧ kf'.ManifestVersion = kf.ManifestVersion := by
  match mp with
  | [] => simp [addModelToKitfile] at h; subst h; exact ⟨rfl, rfl, rfl, rfl, rfl⟩
  | [p] => simp [addModelToKitfile] at h; subst h; exact ⟨rfl, rfl, rfl, rfl, rfl⟩
  | p₀ :: p₁ :: rest =>
    cases hscan : modelScan stat (p₀ :: p₁ :: rest) ("", 0, 0) with
    | none =>
      simp only [addModelToKitfile, hscan] at h
      exact Option.noConfusion h
    | some triple =>
      obtain ⟨lf, ls, total⟩ := triple
      simp only [addModelToKitfile, hscan] at h
      split at h <;>
        (simp only [Option.some.injEq] at h; subst h; exact ⟨rfl, rfl, rfl, rfl, rfl⟩)

theorem modelStage_frame {stat : String → Option Int} {st : GenState} {kf : KitFile}
    (h : modelStage stat st = some kf) :
    kf.Code = st.kf.Code ∧ kf.Docs = st.kf.Docs ∧ kf.Package = st.kf.Package ∧
    kf.ManifestVersion = st.kf.ManifestVersion := by
  unfold modelStage at h
  split at h
  · cases hadd : addModelToKitfile stat st.kf st.modelFiles with
    | none => rw [hadd] at h; simp at h
    | some kfm =>
      obtain ⟨hc, hd, hdo, hp, hm⟩ := addModelToKitfile_frame hadd
      rw [hadd] at h
      cases hmod : kfm.Model with
      | none =>
        simp only [hmod] at h
        exact Option.noConfusion h
      | some m =>
        simp only [hmod, Option.some.injEq] at h
        subst h
        exact ⟨hc, hdo, hp, hm⟩
  · simp only [Option.some.injEq] at h
    subst h
    exact ⟨rfl, rfl, rfl, rfl⟩

theorem attachLicense_code_paths (kf : KitFile) (lic : String) :
    (attachLicense kf lic).Code.map (fun c => c.Path) = kf.Code.map (fun c => c.Path) := by
  unfold attachLicense
  split
  · rfl
  · split
    · cases kf.Code with
      | nil => rfl
      | cons c rest => rfl
    · split
      · cases hc : kf.Code with
        | nil => simp [hc]
        | cons c rest => simp [hc]
      · rfl

theorem attachLicense_dataset_paths (kf : KitFile) (lic : String) :
    (attachLicense kf lic).DataSets.map (fun d => d.Path) =
      kf.DataSets.map (fun d => d.Path) := by
  unfold attachLicense
  split
  · rfl
  · split
    · cases hd : kf.DataSets with
      | nil => simp [hd]
      | cons d rest => simp [hd]
    · split <;> rfl

theorem attachLicense_model_path (kf : KitFile) (lic : String) :
    ((attachLicense kf lic).Model.map (fun m => m.Path) = kf.Model.map (fun m => m.Path)) ∧
    ((attachLicense kf lic).Model.map (fun m => m.Name) = kf.Model.map (fun m => m.Name)) ∧
    ((attachLicense kf lic).Model.map (fun m => m.Parts) = kf.Model.map (fun m => m.Parts)) ∧
    (attachLicense kf lic).Model.isSome = kf.Model.isSome := by
  unfold attachLicense
  split
  · cases kf.Model with
    | none => simp
    | some m => simp
  · split
    · exact ⟨rfl, rfl, rfl, rfl⟩
    · split <;> exact ⟨rfl, rfl, rfl, rfl⟩

/-! ### C7: suffix classifier precedence -/

/-- C7: the Suffix Classifier checks the model-weight, metadata,
documentation and dataset-archive tables in that order (membership being a
case-sensitive trailing-sequence match) and returns the category of the
first matching table, `unknown` when none matches; in particular a
model-suffix match always wins. -/
theorem suffix_classifier_precedence (f : String) :
    (∀ tbl : List String, anySuffix f tbl = true ↔ ∃ s ∈ tbl, goEndsWith f s = true) ∧
    (anySuffix f modelWeightsSuffixes = true → determineFileType f = .model) ∧
    (anySuffix f modelWeightsSuffixes = false → anySuffix f metadataSuffixes = true →
      determineFileType f = .metadata) ∧
    (anySuffix f modelWeightsSuffixes = false → anySuffix f metadataSuffixes = false →
      anySuffix f docsSuffixes = true → determineFileType f = .docs) ∧
    (anySuffix f modelWeightsSuffixes = false → anySuffix f metadataSuffixes = false →
      anySuffix f docsSuffixes = false → anySuffix f datasetSuffixes = true →
      determineFileType f = .dataset) ∧
    (anySuffix f modelWeightsSuffixes = false → anySuffix f metadataSuffixes = false →
      anySuffix f docsSuffixes = false → anySuffix f datasetSuffixes = false →
      determineFileType f = .unknown) := by
  refine ⟨fun tbl => ?_, ?_, ?_, ?_, ?_, ?_⟩
  · simp [anySuffix, List.any_eq_true]
  all_goals intros; simp_all [determineFileType]

/-- Witness for C7: a filename carrying both a model suffix and (as a longer
trailing sequence would) classifies as Model; concretely `.pt` wins. -/
theorem suffix_classifier_precedence_witness :
    determineFileType "weights.pt" = .model :=
  (suffix_classifier_precedence "weights.pt").2.1 (by decide)

/-- Successful generation decomposes into the root pass, the model stage, the
catch-all stage and the license attachment, in that order. -/
theorem GenerateKitfile_decomp {isKit : String → Bool} {stat : String → Option Int}
    {ds : List RootEntry} {pkg : Option Package} {out : KitFile}
    (h : GenerateKitfile isKit stat (some ds) pkg = some out) :
    ∃ kfPre, modelStage stat (passState isKit ds pkg) = some kfPre ∧
      out = attachLicense (catchallStage (passState isKit ds pkg) kfPre)
              (passState isKit ds pkg).detectedLicenseType := by
  cases hms : modelStage stat (passState isKit ds pkg) with
  | none =>
    simp only [GenerateKitfile, hms] at h
    exact Option.noConfusion h
  | some kfPre =>
    simp only [GenerateKitfile, hms, Option.some.injEq] at h
    exact ⟨kfPre, rfl, h.symm⟩

/-! ### C2: license attachment precedence -/

/-- C2: license attachment picks exactly one branch, in strict precedence:
Model when a Model section exists and a license was detected, else a
singleton Dataset, else a singleton Code entry, else Package metadata; the
chosen branch is the only part of the manifest the step touches, and every
successful generation ends with exactly this step. -/
theorem license_attachment_precedence (kf : KitFile) (lic : String) :
    (kf.Model.isSome ∧ lic ≠ "" →
      (attachLicense kf lic).Model = kf.Model.map (fun m => { m with License := lic }) ∧
      (attachLicense kf lic).DataSets = kf.DataSets ∧
      (attachLicense kf lic).Code = kf.Code ∧
      (attachLicense kf lic).Package = kf.Package) ∧
    (¬(kf.Model.isSome ∧ lic ≠ "") → kf.DataSets.length = 1 →
      (attachLicense kf lic).DataSets = kf.DataSets.map (fun d => { d with License := lic }) ∧
      (attachLicense kf lic).Model = kf.Model ∧
      (attachLicense kf lic).Code = kf.Code ∧
      (attachLicense kf lic).Package = kf.Package) ∧
    (¬(kf.Model.isSome ∧ lic ≠ "") → kf.DataSets.length ≠ 1 → kf.Code.length = 1 →
      (attachLicense kf lic).Code = kf.Code.map (fun c => { c with License := lic }) ∧
      (attachLicense kf lic).Model = kf.Model ∧
      (attachLicense kf lic).DataSets = kf.DataSets ∧
      (attachLicense kf lic).Package = kf.Package) ∧
    (¬(kf.Model.isSome ∧ lic ≠ "") → kf.DataSets.length ≠ 1 → kf.Code.length ≠ 1 →
      (attachLicense kf lic).Package = { kf.Package with License := lic } ∧
      (attachLicense kf lic).Model = kf.Model ∧
      (attachLicense kf lic).DataSets = kf.DataSets ∧
      (attachLicense kf lic).Code = kf.Code) ∧
    (∀ (isKit : String → Bool) (stat : String → Option Int) (ds : List RootEntry)
        (pkg : Option Package) (out : KitFile),
      GenerateKitfile isKit stat (some ds) pkg = some out →
      ∃ kfPre, modelStage stat (passState isKit ds pkg) = some kfPre ∧
        out = attachLicense (catchallStage (passState isKit ds pkg) kfPre)
                (passState isKit ds pkg).detectedLicenseType) := by
  refine ⟨?_, ?_, ?_, ?_, ?_⟩
  · intro hcond
    unfold attachLicense
    rw [if_pos hcond]
    cases kf.Model with
    | none => exact ⟨rfl, rfl, rfl, rfl⟩
    | some m => exact ⟨rfl, rfl, rfl, rfl⟩
  · intro hcond hds
    unfold attachLicense
    rw [if_neg hcond, if_pos hds]
    cases hd : kf.DataSets with
    | nil => rw [hd] at hds; simp at hds
    | cons d rest =>
      rw [hd] at hds
      simp only [List.length_cons, Nat.succ.injEq] at hds
      have : rest = [] := List.length_eq_zero.mp hds
      subst this
      simp [hd]
  · intro hcond hds hcode
    unfold attachLicense
    rw [if_neg hcond, if_neg hds, if_pos hcode]
    cases hc : kf.Code with
    | nil => rw [hc] at hcode; simp at hcode
    | cons c rest =>
      rw [hc] at hcode
      simp only [List.length_cons, Nat.succ.injEq] at hcode
      have : rest = [] := List.length_eq_zero.mp hcode
      subst this
      simp [hc]
  · intro hcond hds hcode
    unfold attachLicense
    rw [if_neg hcond, if_neg hds, if_neg hcode]
    exact ⟨rfl, rfl, rfl, rfl⟩
  · intro isKit stat ds pkg out h
    exact GenerateKitfile_decomp h

/-- Witness for C2, applying the theorem on a manifest with a Model section
and a detected license: the license lands on the Model and on nothing
else. -/
theorem license_attachment_precedence_witness :
    (attachLicense { Model := some { Path := "m.pt" } } "Apache-2.0").Model =
        some { Path := "m.pt", License := "Apache-2.0" } ∧
      (attachLicense { Model := some { Path := "m.pt" } } "Apache-2.0").Package.License = "" := by
  have h := (license_attachment_precedence { Model := some { Path := "m.pt" } } "Apache-2.0").1
    (by refine ⟨rfl, ?_⟩; decide)
  refine ⟨?_, ?_⟩
  · rw [h.1]; rfl
  · rw [h.2.2.2]

/-! ### C6: catch-all decision -/

/-- C6: after the root pass, if the catch-all flag is set or more than five
directories went unprocessed, the Code section becomes the single root
entry "." (discarding earlier Code entries); otherwise each unprocessed
directory path is appended as its own Code entry after the Code entries
accumulated during the pass. -/
theorem catchall_decision (isKit : String → Bool) (stat : String → Option Int)
    (ds : List RootEntry) (pkg : Option Package) (out : KitFile)
    (h : GenerateKitfile isKit stat (some ds) pkg = some out) :
    ((passState isKit ds pkg).includeCatchallSection = true ∨
        5 < (passState isKit ds pkg).unprocessedDirPaths.length →
      out.Code.map (fun c => c.Path) = ["."]) ∧
    ((passState isKit ds pkg).includeCatchallSection = false →
        (passState isKit ds pkg).unprocessedDirPaths.length ≤ 5 →
      out.Code.map (fun c => c.Path) =
        (passState isKit ds pkg).kf.Code.map (fun c => c.Path) ++
          (passState isKit ds pkg).unprocessedDirPaths) := by
  obtain ⟨kfPre, hms, hout⟩ := GenerateKitfile_decomp h
  have hcodes := (modelStage_frame hms).1
  subst hout
  rw [attachLicense_code_paths]
  constructor
  · intro hcond
    unfold catchallStage
    rw [if_pos ?_]
    · rfl
    · rcases hcond with hc | hc
      · exact Or.inl (by simp [hc])
      · exact Or.inr hc
  · intro hflag hlen
    unfold catchallStage
    rw [if_neg ?_]
    · simp [hcodes, List.map_map, Function.comp_def]
    · rw [hflag]
      simp only [Bool.false_eq_true, false_or, not_lt]
      exact hlen

/-- A root whose seven subdirectories all fail summarization (each is empty,
so its sole non-metadata verdict set is empty and it degrades to the
treat-as-Code failure). -/
def sevenDirRoot : List RootEntry :=
  [{ name := "d1", kind := .dir (some []) },
   { name := "d2", kind := .dir (some []) },
   { name := "d3", kind := .dir (some []) },
   { name := "d4", kind := .dir (some []) },
   { name := "d5", kind := .dir (some []) },
   { name := "d6", kind := .dir (some []) },
   { name := "d7", kind := .dir (some []) }]

/-- Witness for C6: seven failing subdirectories produce the single catch-all
Code entry "." rather than seven Code entries. -/
theorem catchall_decision_witness :
    ∃ out, GenerateKitfile (fun _ => false) (fun _ => none) (some sevenDirRoot) none = some out ∧
      out.Code.map (fun c => c.Path) = ["."] := by
  have h : GenerateKitfile (fun _ => false) (fun _ => none) (some sevenDirRoot) none =
      some { ManifestVersion := "1.0.0", Code := [{ Path := "." }] } := by decide
  exact ⟨_, h, (catchall_decision _ _ _ _ _ h).1 (Or.inr (by decide))⟩

theorem catchallStage_frame (st : GenState) (kf : KitFile) :
    (catchallStage st kf).Model = kf.Model ∧
    (catchallStage st kf).DataSets = kf.DataSets ∧
    (catchallStage st kf).Docs = kf.Docs ∧
    (catchallStage st kf).Package = kf.Package := by
  unfold catchallStage
  split <;> exact ⟨rfl, rfl, rfl, rfl⟩

/-! ### C5: model display name (corrected) -/

/-- The root holding two model-suffixed files of equal size: no candidate
dominates, so the Model Assembler takes the else branch, which never sets
the display name. -/
def twoModelRoot : List RootEntry :=
  [{ name := "a.gguf", kind := .file none },
   { name := "b.gguf", kind := .file none }]

/-- Counterexample to C5 as stated: a generated manifest whose Model section
has an empty `Name`, not the primary file's base name "a" without its
extension. -/
theorem model_name_counterexample :
    ∃ out, GenerateKitfile (fun _ => false) (fun _ => some 100) (some twoModelRoot) none = some out ∧
      out.Model.map (fun m => m.Name) = some "" ∧
      goTrimSuffix (goBase "a.gguf") (goExt (goBase "a.gguf")) = "a" ∧
      ("" : String) ≠ "a" := by
  have h : GenerateKitfile (fun _ => false) (fun _ => some 100) (some twoModelRoot) none =
      some { ManifestVersion := "1.0.0",
             Model := some { Path := "a.gguf", Parts := [{ Path := "b.gguf" }] } } := by decide
  exact ⟨_, h, by decide, by decide, by decide⟩

/-- C5 as amended: when the Model section is elected from a single candidate
path, `Model.Name` is the candidate's base filename with its extension
stripped; in particular a root whose pass yields exactly one model
candidate and no pending metadata produces `Model.Path` equal to that
file, empty `Parts`, and that derived name. (As generated manifests go,
the multi-candidate branches differ: the dominant-size branch derives the
name from the whole relative path and the first-of-equals branch leaves
the name empty.) -/
theorem model_name_single_candidate (stat : String → Option Int) (kf : KitFile) (p : String) :
    addModelToKitfile stat kf [p] =
      some { kf with Model := some { Path := p, Name := goTrimSuffix (goBase p) (goExt (goBase p)) } } ∧
    (∀ (isKit : String → Bool) (ds : List RootEntry) (pkg : Option Package) (out : KitFile),
      GenerateKitfile isKit stat (some ds) pkg = some out →
      (passState isKit ds pkg).modelFiles = [p] →
      (passState isKit ds pkg).metadataPaths = [] →
      ∃ m, out.Model = some m ∧ m.Path = p ∧ m.Parts = [] ∧
        m.Name = goTrimSuffix (goBase p) (goExt (goBase p))) := by
  constructor
  · rfl
  · intro isKit ds pkg out h hmf hmeta
    obtain ⟨kfPre, hms, hout⟩ := GenerateKitfile_decomp h
    unfold modelStage at hms
    rw [hmf, hmeta] at hms
    simp only [List.length_cons, List.length_nil, Nat.lt_irrefl, if_pos (Nat.zero_lt_succ 0)] at hms
    have hadd : addModelToKitfile stat (passState isKit ds pkg).kf [p] =
        some { (passState isKit ds pkg).kf with Model := some { Path := p, Name := goTrimSuffix (goBase p) (goExt (goBase p)) } } := rfl
    rw [hadd] at hms
    simp only [List.map_nil, List.append_nil, Option.some.injEq] at hms
    have hM : kfPre.Model = some { Path := p, Name := goTrimSuffix (goBase p) (goExt (goBase p)) } := by
      rw [← hms]
    have hcm := (catchallStage_frame (passState isKit ds pkg) kfPre).1
    have hal := attachLicense_model_path (catchallStage (passState isKit ds pkg) kfPre)
      (passState isKit ds pkg).detectedLicenseType
    subst hout
    cases hOM : (attachLicense (catchallStage (passState isKit ds pkg) kfPre)
        (passState isKit ds pkg).detectedLicenseType).Model with
    | none =>
      exfalso
      have hs := hal.2.2.2
      rw [hOM, hcm, hM] at hs
      simp at hs
    | some m =>
      refine ⟨m, rfl, ?_, ?_, ?_⟩
      · have hq := hal.1
        rw [hOM, hcm, hM] at hq
        simpa using hq
      · have hq := hal.2.2.1
        rw [hOM, hcm, hM] at hq
        simpa using hq.symm
      · have hq := hal.2.1
        rw [hOM, hcm, hM] at hq
        simpa using hq

/-- Witness for the amended C5: a root containing exactly one model-suffixed
file and nothing else yields Model.Path that file, empty Parts and the
base name without its extension as Name. -/
theorem model_name_single_candidate_witness :
    ∃ m, ∃ out,
      GenerateKitfile (fun _ => false) (fun _ => some 7)
        (some [{ name := "model.onnx", kind := .file none }]) none = some out ∧
      out.Model = some m ∧ m.Path = "model.onnx" ∧ m.Parts = [] ∧ m.Name = "model" := by
  have h : GenerateKitfile (fun _ => false) (fun _ => some 7)
      (some [{ name := "model.onnx", kind := .file none }]) none =
      some { ManifestVersion := "1.0.0",
             Model := some { Path := "model.onnx", Name := "model" } } := by decide
  obtain ⟨m, hm, hp, hparts, hname⟩ :=
    ((model_name_single_candidate (fun _ => some 7) { ManifestVersion := "1.0.0" } "model.onnx").2
      (fun _ => false) [{ name := "model.onnx", kind := .file none }] none _ h (by decide) (by decide))
  have : goTrimSuffix (goBase "model.onnx") (goExt (goBase "model.onnx")) = "model" := by decide
  exact ⟨m, _, h, hm, hp, hparts, this ▸ hname⟩

/-! ### Directory scan characterization -/

/-- The model-suffixed files of a directory listing, relative to `dirPath`,
in encounter order. -/
def dirModelFiles (dirPath : String) (entries : List SubEntry) : List String :=
  (entries.filter (fun e => childType e = .model)).map (fun e => goJoin dirPath e.name)

/-- The metadata-suffixed files of a directory listing, relative to
`dirPath`, in encounter order. -/
def dirMetadataFiles (dirPath : String) (entries : List SubEntry) : List String :=
  (entries.filter (fun e => childType e = .metadata)).map (fun e => goJoin dirPath e.name)

theorem Buckets.add_get (b : Buckets) (t t' : fileType) (p : String) :
    (b.add t p).get t' = if t' = t then b.get t' ++ [p] else b.get t' := by
  cases t <;> cases t' <;> simp [Buckets.add, Buckets.get]

theorem dirScanStep_eq (dirPath : String) (st : List String × Buckets) (e : SubEntry) :
    dirScanStep dirPath st e =
      (if childType e = .model then st.1 ++ [goJoin dirPath e.name] else st.1,
       st.2.add (childType e) (goJoin dirPath e.name)) := by
  unfold dirScanStep childType
  by_cases hd : e.isDir
  · simp [hd]
  · simp [hd]

theorem dirScan_fst (dirPath : String) (entries : List SubEntry)
    (mf0 : List String) (b0 : Buckets) :
    (entries.foldl (dirScanStep dirPath) (mf0, b0)).1 = mf0 ++ dirModelFiles dirPath entries := by
  induction entries generalizing mf0 b0 with
  | nil => simp [dirModelFiles]
  | cons e rest ih =>
    rw [List.foldl_cons, dirScanStep_eq]
    by_cases hm : childType e = .model
    · rw [if_pos hm, ih]
      simp [dirModelFiles, List.filter_cons, hm]
    · rw [if_neg hm, ih]
      simp [dirModelFiles, List.filter_cons, hm]

theorem dirScan_get (dirPath : String) (entries : List SubEntry)
    (mf0 : List String) (b0 : Buckets) (t : fileType) :
    ((entries.foldl (dirScanStep dirPath) (mf0, b0)).2).get t =
      b0.get t ++ (entries.filter (fun e => childType e = t)).map
        (fun e => goJoin dirPath e.name) := by
  induction entries generalizing mf0 b0 with
  | nil => simp
  | cons e rest ih =>
    rw [List.foldl_cons, dirScanStep_eq]
    by_cases hm : childType e = .model
    · rw [if_pos hm, ih, Buckets.add_get]
      by_cases ht : t = childType e
      · simp [List.filter_cons, ← ht]
      · have hne : ¬ childType e = t := fun hc => ht hc.symm
        simp [List.filter_cons, ht, hne]
    · rw [if_neg hm, ih, Buckets.add_get]
      by_cases ht : t = childType e
      · simp [List.filter_cons, ← ht]
      · have hne : ¬ childType e = t := fun hc => ht hc.symm
        simp [List.filter_cons, ht, hne]

/-- The last non-metadata category (in iota order) whose bucket is
non-empty, `.unknown` when none is: the value `overallFiletype` holds
after the reduction loop. -/
def lastActive (b : Buckets) : fileType :=
  if b.get .unknown ≠ [] then .unknown
  else if b.get .docs ≠ [] then .docs
  else if b.get .code ≠ [] then .code
  else if b.get .dataset ≠ [] then .dataset
  else if b.get .model ≠ [] then .model
  else .unknown

/-- The number of non-metadata categories with a non-empty bucket. -/
def activeCount (b : Buckets) : Nat :=
  (if b.get .model ≠ [] then 1 else 0) + (if b.get .dataset ≠ [] then 1 else 0) +
  (if b.get .code ≠ [] then 1 else 0) + (if b.get .docs ≠ [] then 1 else 0) +
  (if b.get .unknown ≠ [] then 1 else 0)

/-- The reduction loop computes the last active category and flags mixed
contents exactly when at least two non-metadata categories are active. -/
theorem reduce_eval (b : Buckets) :
    fileTypeOrder.foldl (reduceStep b) (.unknown, false) =
      (lastActive b, decide (2 ≤ activeCount b)) := by
  unfold fileTypeOrder reduceStep lastActive activeCount Buckets.get
  by_cases h1 : b.model = [] <;> by_cases h2 : b.dataset = [] <;> by_cases h3 : b.code = [] <;>
    by_cases h4 : b.docs = [] <;> by_cases h5 : b.unknown = [] <;>
      simp [h1, h2, h3, h4, h5, List.length_pos]

/-- The categories other than Metadata having at least one member among the
immediate children of a directory, in iota order. -/
def activeCats (entries : List SubEntry) : List fileType :=
  fileTypeOrder.filter (fun t => t ≠ .metadata ∧ entries.any (fun e => childType e = t))

theorem mem_activeCats (entries : List SubEntry) (t : fileType) :
    t ∈ activeCats entries ↔
      t ≠ .metadata ∧ entries.any (fun e => childType e = t) = true := by
  unfold activeCats
  rw [List.mem_filter]
  have : t ∈ fileTypeOrder := by cases t <;> simp [fileTypeOrder]
  simp [this]

/-- Bucket `t` of the scan is non-empty exactly when some child classifies
as `t`. -/
theorem Buckets.empty_get (t : fileType) : (({} : Buckets)).get t = [] := by
  cases t <;> rfl

theorem dirScan_get_ne_nil (dirPath : String) (entries : List SubEntry) (t : fileType) :
    ((entries.foldl (dirScanStep dirPath) ([], {})).2).get t ≠ [] ↔
      entries.any (fun e => childType e = t) = true := by
  rw [dirScan_get, Buckets.empty_get]
  simp [List.any_eq_true, List.filter_eq_nil_iff]

theorem addDirToKitfile_eq (kf : KitFile) (dirName : String) (entries : List SubEntry)
    (h1 : ¬ dirName = "docs")
    (h2 : ¬(dirName = "src" ∨ dirName = "pkg" ∨ dirName = "lib" ∨ dirName = "build")) :
    addDirToKitfile kf dirName (some entries) =
      (if (fileTypeOrder.foldl (reduceStep (entries.foldl (dirScanStep dirName) ([], {})).2)
            (.unknown, false)).2 then
        (kf, (entries.foldl (dirScanStep dirName) ([], {})).1,
          some "mixed content in directory; unable to determine type")
       else
        match (fileTypeOrder.foldl (reduceStep (entries.foldl (dirScanStep dirName) ([], {})).2)
            (.unknown, false)).1 with
        | .model =>
          (kf, (entries.foldl (dirScanStep dirName) ([], {})).1 ++
            ((entries.foldl (dirScanStep dirName) ([], {})).2).metadata, none)
        | .dataset =>
          ({ kf with DataSets := kf.DataSets ++ [{ Path := dirName }] },
            (entries.foldl (dirScanStep dirName) ([], {})).1, none)
        | .docs =>
          ({ kf with Docs := kf.Docs ++ [{ Path := dirName }] },
            (entries.foldl (dirScanStep dirName) ([], {})).1, none)
        | _ =>
          (kf, (entries.foldl (dirScanStep dirName) ([], {})).1,
            some "directory should be handled as Code")) := by
  unfold addDirToKitfile
  rw [if_neg h1, if_neg h2]

theorem dirModelFiles_eq_nil {dirPath : String} {entries : List SubEntry}
    (h : ¬ entries.any (fun e => childType e = .model) = true) :
    dirModelFiles dirPath entries = [] := by
  unfold dirModelFiles
  simp only [List.any_eq_true, not_exists] at h
  simp only [List.map_eq_nil_iff, List.filter_eq_nil_iff]
  intro e he
  simpa using fun hct => (h e) ⟨he, by simpa using hct⟩

theorem activeCount_eq (dirPath : String) (entries : List SubEntry) :
    activeCount ((entries.foldl (dirScanStep dirPath) ([], {})).2) =
      (activeCats entries).length := by
  have hm := dirScan_get_ne_nil dirPath entries .model
  have hd := dirScan_get_ne_nil dirPath entries .dataset
  have hc := dirScan_get_ne_nil dirPath entries .code
  have ho := dirScan_get_ne_nil dirPath entries .docs
  have hu := dirScan_get_ne_nil dirPath entries .unknown
  unfold activeCount activeCats fileTypeOrder
  by_cases bm : entries.any (fun e => childType e = .model) = true <;>
  by_cases bd : entries.any (fun e => childType e = .dataset) = true <;>
  by_cases bc : entries.any (fun e => childType e = .code) = true <;>
  by_cases bo : entries.any (fun e => childType e = .docs) = true <;>
  by_cases bu : entries.any (fun e => childType e = .unknown) = true <;>
    simp [List.filter, hm, hd, hc, ho, hu, bm, bd, bc, bo, bu]

/-! ### C3: directory summarizer verdicts -/

/-- C3: for a subdirectory that is not one of the special-cased names and
whose listing succeeds, the summarizer classifies each immediate child
(nested directories bucketed as Unknown without recursing), then: more
than one active non-metadata category fails as mixed contents; a sole
active Dataset or Docs category appends the directory path to the
corresponding manifest list; a sole active Model category returns the
directory's model-typed and metadata-typed file paths to the caller; no
active category, or a sole active Code or Unknown category, fails with
the treat-as-Code outcome. -/
theorem dir_summarizer_verdicts (kf : KitFile) (dirName : String) (entries : List SubEntry)
    (h1 : dirName ≠ "docs") (h2 : dirName ≠ "src") (h3 : dirName ≠ "pkg")
    (h4 : dirName ≠ "lib") (h5 : dirName ≠ "build") :
    (2 ≤ (activeCats entries).length →
      addDirToKitfile kf dirName (some entries) =
        (kf, dirModelFiles dirName entries,
          some "mixed content in directory; unable to determine type")) ∧
    (activeCats entries = [.model] →
      addDirToKitfile kf dirName (some entries) =
        (kf, dirModelFiles dirName entries ++ dirMetadataFiles dirName entries, none)) ∧
    (activeCats entries = [.dataset] →
      addDirToKitfile kf dirName (some entries) =
        ({ kf with DataSets := kf.DataSets ++ [{ Path := dirName }] }, [], none)) ∧
    (activeCats entries = [.docs] →
      addDirToKitfile kf dirName (some entries) =
        ({ kf with Docs := kf.Docs ++ [{ Path := dirName }] }, [], none)) ∧
    (activeCats entries = [] ∨ activeCats entries = [.code] ∨ activeCats entries = [.unknown] →
      addDirToKitfile kf dirName (some entries) =
        (kf, [], some "directory should be handled as Code")) := by
  have hne : ¬(dirName = "src" ∨ dirName = "pkg" ∨ dirName = "lib" ∨ dirName = "build") := by
    push_neg
    exact ⟨h2, h3, h4, h5⟩
  have hADK := addDirToKitfile_eq kf dirName entries h1 hne
  rw [reduce_eval] at hADK
  have hfst : (entries.foldl (dirScanStep dirName) ([], ({} : Buckets))).1 =
      dirModelFiles dirName entries := by
    rw [dirScan_fst]
    simp
  have hmeta : ((entries.foldl (dirScanStep dirName) ([], ({} : Buckets))).2).metadata =
      dirMetadataFiles dirName entries := by
    have hg := dirScan_get dirName entries [] {} .metadata
    rw [Buckets.empty_get] at hg
    simpa [Buckets.get, dirMetadataFiles] using hg
  have gm := dirScan_get_ne_nil dirName entries .model
  have gd := dirScan_get_ne_nil dirName entries .dataset
  have gc := dirScan_get_ne_nil dirName entries .code
  have gdo := dirScan_get_ne_nil dirName entries .docs
  have gu := dirScan_get_ne_nil dirName entries .unknown
  have hcnt := activeCount_eq dirName entries
  have notAct : ∀ t : fileType, t ∉ activeCats entries → t ≠ .metadata →
      ¬ entries.any (fun e => childType e = t) = true := by
    intro t hnt hm hcon
    exact hnt ((mem_activeCats entries t).mpr ⟨hm, hcon⟩)
  refine ⟨?_, ?_, ?_, ?_, ?_⟩
  · intro hlen
    rw [hADK, hcnt]
    rw [if_pos (by simpa using hlen)]
    rw [hfst]
  · intro hA
    have am : entries.any (fun e => childType e = .model) = true :=
      ((mem_activeCats entries .model).mp (by rw [hA]; exact List.mem_singleton_self _)).2
    have ad := notAct .dataset (by rw [hA]; simp) (by decide)
    have ac := notAct .code (by rw [hA]; simp) (by decide)
    have ao := notAct .docs (by rw [hA]; simp) (by decide)
    have au := notAct .unknown (by rw [hA]; simp) (by decide)
    have Bm := gm.mpr am
    have Bd : ((entries.foldl (dirScanStep dirName) ([], {})).2).get .dataset = [] :=
      not_ne_iff.mp (fun hx => ad (gd.mp hx))
    have Bc : ((entries.foldl (dirScanStep dirName) ([], {})).2).get .code = [] :=
      not_ne_iff.mp (fun hx => ac (gc.mp hx))
    have Bo : ((entries.foldl (dirScanStep dirName) ([], {})).2).get .docs = [] :=
      not_ne_iff.mp (fun hx => ao (gdo.mp hx))
    have Bu : ((entries.foldl (dirScanStep dirName) ([], {})).2).get .unknown = [] :=
      not_ne_iff.mp (fun hx => au (gu.mp hx))
    have hLA : lastActive ((entries.foldl (dirScanStep dirName) ([], {})).2) = .model := by
      simp [lastActive, Bm, Bd, Bc, Bo, Bu]
    have hCount : activeCount ((entries.foldl (dirScanStep dirName) ([], {})).2) = 1 := by
      simp [activeCount, Bm, Bd, Bc, Bo, Bu]
    rw [hADK, hCount, hLA]
    simp [hfst, hmeta]
  · intro hA
    have ada : entries.any (fun e => childType e = .dataset) = true :=
      ((mem_activeCats entries .dataset).mp (by rw [hA]; exact List.mem_singleton_self _)).2
    have am := notAct .model (by rw [hA]; simp) (by decide)
    have ac := notAct .code (by rw [hA]; simp) (by decide)
    have ao := notAct .docs (by rw [hA]; simp) (by decide)
    have au := notAct .unknown (by rw [hA]; simp) (by decide)
    have Bd := gd.mpr ada
    have Bm : ((entries.foldl (dirScanStep dirName) ([], {})).2).get .model = [] :=
      not_ne_iff.mp (fun hx => am (gm.mp hx))
    have Bc : ((entries.foldl (dirScanStep dirName) ([], {})).2).get .code = [] :=
      not_ne_iff.mp (fun hx => ac (gc.mp hx))
    have Bo : ((entries.foldl (dirScanStep dirName) ([], {})).2).get .docs = [] :=
      not_ne_iff.mp (fun hx => ao (gdo.mp hx))
    have Bu : ((entries.foldl (dirScanStep dirName) ([], {})).2).get .unknown = [] :=
      not_ne_iff.mp (fun hx => au (gu.mp hx))
    have hLA : lastActive ((entries.foldl (dirScanStep dirName) ([], {})).2) = .dataset := by
      simp [lastActive, Bm, Bd, Bc, Bo, Bu]
    have hCount : activeCount ((entries.foldl (dirScanStep dirName) ([], {})).2) = 1 := by
      simp [activeCount, Bm, Bd, Bc, Bo, Bu]
    have hmf0 : dirModelFiles dirName entries = [] := dirModelFiles_eq_nil am
    rw [hADK, hCount, hLA]
    simp [hfst, hmf0]
  · intro hA
    have ado : entries.any (fun e => childType e = .docs) = true :=
      ((mem_activeCats entries .docs).mp (by rw [hA]; exact List.mem_singleton_self _)).2
    have am := notAct .model (by rw [hA]; simp) (by decide)
    have ad := notAct .dataset (by rw [hA]; simp) (by decide)
    have ac := notAct .code (by rw [hA]; simp) (by decide)
    have au := notAct .unknown (by rw [hA]; simp) (by decide)
    have Bo := gdo.mpr ado
    have Bm : ((entries.foldl (dirScanStep dirName) ([], {})).2).get .model = [] :=
      not_ne_iff.mp (fun hx => am (gm.mp hx))
    have Bd : ((entries.foldl (dirScanStep dirName) ([], {})).2).get .dataset = [] :=
      not_ne_iff.mp (fun hx => ad (gd.mp hx))
    have Bc : ((entries.foldl (dirScanStep dirName) ([], {})).2).get .code = [] :=
      not_ne_iff.mp (fun hx => ac (gc.mp hx))
    have Bu : ((entries.foldl (dirScanStep dirName) ([], {})).2).get .unknown = [] :=
      not_ne_iff.mp (fun hx => au (gu.mp hx))
    have hLA : lastActive ((entries.foldl (dirScanStep dirName) ([], {})).2) = .docs := by
      simp [lastActive, Bm, Bd, Bc, Bo, Bu]
    have hCount : activeCount ((entries.foldl (dirScanStep dirName) ([], {})).2) = 1 := by
      simp [activeCount, Bm, Bd, Bc, Bo, Bu]
    have hmf0 : dirModelFiles dirName entries = [] := dirModelFiles_eq_nil am
    rw [hADK, hCount, hLA]
    simp [hfst, hmf0]
  · intro hA
    have am := notAct .model (by rcases hA with hA | hA | hA <;> rw [hA] <;> simp) (by decide)
    have ad := notAct .dataset (by rcases hA with hA | hA | hA <;> rw [hA] <;> simp) (by decide)
    have ao := notAct .docs (by rcases hA with hA | hA | hA <;> rw [hA] <;> simp) (by decide)
    have Bm : ((entries.foldl (dirScanStep dirName) ([], {})).2).get .model = [] :=
      not_ne_iff.mp (fun hx => am (gm.mp hx))
    have Bd : ((entries.foldl (dirScanStep dirName) ([], {})).2).get .dataset = [] :=
      not_ne_iff.mp (fun hx => ad (gd.mp hx))
    have Bo : ((entries.foldl (dirScanStep dirName) ([], {})).2).get .docs = [] :=
      not_ne_iff.mp (fun hx => ao (gdo.mp hx))
    have hmf0 : dirModelFiles dirName entries = [] := dirModelFiles_eq_nil am
    have hlen : (activeCats entries).length ≤ 1 := by
      rcases hA with hA | hA | hA <;> rw [hA] <;> simp
    have hnm : ¬ (decide (2 ≤ activeCount ((entries.foldl (dirScanStep dirName) ([], {})).2)) = true) := by
      rw [hcnt]
      simpa using by omega
    rcases hA with hA | hA | hA
    · have ac := notAct .code (by rw [hA]; simp) (by decide)
      have au := notAct .unknown (by rw [hA]; simp) (by decide)
      have Bc : ((entries.foldl (dirScanStep dirName) ([], {})).2).get .code = [] :=
        not_ne_iff.mp (fun hx => ac (gc.mp hx))
      have Bu : ((entries.foldl (dirScanStep dirName) ([], {})).2).get .unknown = [] :=
        not_ne_iff.mp (fun hx => au (gu.mp hx))
      have hLA : lastActive ((entries.foldl (dirScanStep dirName) ([], {})).2) = .unknown := by
        simp [lastActive, Bm, Bd, Bc, Bo, Bu]
      rw [hADK, hLA]
      rw [if_neg hnm]
      simp [hfst, hmf0]
    · have acc : entries.any (fun e => childType e = .code) = true :=
        ((mem_activeCats entries .code).mp (by rw [hA]; exact List.mem_singleton_self _)).2
      have au := notAct .unknown (by rw [hA]; simp) (by decide)
      have Bc := gc.mpr acc
      have Bu : ((entries.foldl (dirScanStep dirName) ([], {})).2).get .unknown = [] :=
        not_ne_iff.mp (fun hx => au (gu.mp hx))
      have hLA : lastActive ((entries.foldl (dirScanStep dirName) ([], {})).2) = .code := by
        simp [lastActive, Bm, Bd, Bc, Bo, Bu]
      rw [hADK, hLA]
      rw [if_neg hnm]
      simp [hfst, hmf0]
    · have auu : entries.any (fun e => childType e = .unknown) = true :=
        ((mem_activeCats entries .unknown).mp (by rw [hA]; exact List.mem_singleton_self _)).2
      have Bu := gu.mpr auu
      have hLA : lastActive ((entries.foldl (dirScanStep dirName) ([], {})).2) = .unknown := by
        simp [lastActive, Bu]
      rw [hADK, hLA]
      rw [if_neg hnm]
      simp [hfst, hmf0]

/-- Witness for C3: a directory holding a single dataset-suffixed file gets
the Dataset verdict, appending the directory path to the manifest's
dataset list. -/
theorem dir_summarizer_verdicts_witness :
    addDirToKitfile {} "data" (some [{ name := "d.csv", isDir := false }]) =
      ({ DataSets := [{ Path := "data" }] }, [], none) :=
  (dir_summarizer_verdicts {} "data" [{ name := "d.csv", isDir := false }]
      (by decide) (by decide) (by decide) (by decide) (by decide)).2.2.1 (by decide)

/-! ### C4: effects of a failed directory summarization (corrected) -/

theorem addDir_err_spec (kf : KitFile) (nm : String) (listing : Option (List SubEntry))
    (herr : (addDirToKitfile kf nm listing).2.2.isSome = true) :
    (addDirToKitfile kf nm listing).1 = kf ∧
    (listing = none → (addDirToKitfile kf nm listing).2.1 = []) ∧
    (∀ entries, listing = some entries →
      (addDirToKitfile kf nm listing).2.1 = dirModelFiles nm entries) := by
  by_cases h1 : nm = "docs"
  · exfalso
    unfold addDirToKitfile at herr
    rw [if_pos h1] at herr
    simp at herr
  by_cases h2 : nm = "src" ∨ nm = "pkg" ∨ nm = "lib" ∨ nm = "build"
  · exfalso
    unfold addDirToKitfile at herr
    rw [if_neg h1, if_pos h2] at herr
    simp at herr
  cases listing with
  | none =>
    unfold addDirToKitfile
    rw [if_neg h1, if_neg h2]
    exact ⟨rfl, fun _ => rfl, fun entries h => Option.noConfusion h⟩
  | some entries =>
    have hADK := addDirToKitfile_eq kf nm entries h1 h2
    have hfst : (entries.foldl (dirScanStep nm) ([], ({} : Buckets))).1 =
        dirModelFiles nm entries := by
      rw [dirScan_fst]
      simp
    rw [hADK] at herr ⊢
    rcases hred : (fileTypeOrder.foldl
        (reduceStep ((entries.foldl (dirScanStep nm) ([], ({} : Buckets))).2))
        ((.unknown : fileType), false)) with ⟨ov, mx⟩
    cases mx with
    | true => simp_all [hfst]
    | false => cases ov <;> simp_all [hfst]

/-- C4 as amended: when summarization of a subdirectory fails, the
orchestrator's manifest is untouched and the directory's path is appended
to the unprocessed list, but the model-suffixed files of the directory
(none when the listing itself could not be read) are still appended to the
accumulated model candidates. -/
theorem dir_failure_effects (isKit : String → Bool) (st : GenState) (nm : String)
    (listing : Option (List SubEntry)) (hkit : isKit nm = false)
    (herr : (addDirToKitfile st.kf nm listing).2.2.isSome = true) :
    processRootEntry isKit st { name := nm, kind := .dir listing } =
      { st with unprocessedDirPaths := st.unprocessedDirPaths ++ [nm],
                modelFiles := st.modelFiles ++ (addDirToKitfile st.kf nm listing).2.1 } ∧
    (listing = none → (addDirToKitfile st.kf nm listing).2.1 = []) ∧
    (∀ entries, listing = some entries →
      (addDirToKitfile st.kf nm listing).2.1 = dirModelFiles nm entries) := by
  obtain ⟨hkf, hnone, hsome⟩ := addDir_err_spec st.kf nm listing herr
  refine ⟨?_, hnone, hsome⟩
  unfold processRootEntry
  rw [if_neg (by simp [hkit])]
  simp only [herr, if_true, hkf]

/-- A root with one directory of mixed contents: a model-weight file next to
a dataset file. -/
def mixedRoot : List RootEntry :=
  [{ name := "sub", kind := .dir (some [{ name := "m.gguf", isDir := false },
                                        { name := "d.csv", isDir := false }]) }]

/-- Counterexample to C4 as stated: the mixed directory "sub" fails
summarization (it is recorded as unprocessed), yet its model-suffixed file
"sub/m.gguf" is accumulated as a model candidate, and the final manifest
even elects it as the Model path. -/
theorem dir_failure_counterexample :
    (passState (fun _ => false) mixedRoot none).unprocessedDirPaths = ["sub"] ∧
    (passState (fun _ => false) mixedRoot none).modelFiles = ["sub/m.gguf"] ∧
    (addDirToKitfile { ManifestVersion := "1.0.0" } "sub"
        (some [{ name := "m.gguf", isDir := false },
               { name := "d.csv", isDir := false }])).2.2.isSome = true ∧
    (GenerateKitfile (fun _ => false) (fun _ => some 5) (some mixedRoot) none).map
        (fun kf => kf.Model.map (fun m => m.Path)) = some (some "sub/m.gguf") := by
  exact ⟨by decide, by decide, by decide, by decide⟩

/-- Witness for the amended C4 at the mixed directory input: the step
appends the path to the unprocessed list and the mixed directory's model
file to the candidates, leaving the manifest untouched. -/
theorem dir_failure_effects_witness :
    processRootEntry (fun _ => false)
        { kf := { ManifestVersion := "1.0.0" } }
        { name := "sub", kind := .dir (some [{ name := "m.gguf", isDir := false },
                                             { name := "d.csv", isDir := false }]) } =
      { kf := { ManifestVersion := "1.0.0" },
        unprocessedDirPaths := ["sub"],
        modelFiles := ["sub/m.gguf"] } := by
  have h := (dir_failure_effects (fun _ => false) { kf := { ManifestVersion := "1.0.0" } }
    "sub" (some [{ name := "m.gguf", isDir := false }, { name := "d.csv", isDir := false }])
    rfl (by decide)).1
  rw [h]
  decide

/-! ### C8: terminal errors -/

theorem modelScan_isSome (stat : String → Option Int) (paths : List String)
    (st₀ : String × Int × Int) :
    (modelScan stat paths st₀).isSome = true ↔ ∀ p ∈ paths, (stat p).isSome = true := by
  induction paths generalizing st₀ with
  | nil => simp [modelScan]
  | cons p rest ih =>
    obtain ⟨lf, ls, acc⟩ := st₀
    cases hp : stat p with
    | none => simp [modelScan, hp]
    | some sz =>
      simp only [modelScan, hp]
      rw [ih]
      constructor
      · intro hall q hq
        rcases List.mem_cons.mp hq with hq | hq
        · subst hq; simp [hp]
        · exact hall q hq
      · intro hall q hq
        exact hall q (List.mem_cons_of_mem _ hq)

theorem addModel_isSome (stat : String → Option Int) (kf : KitFile) (paths : List String) :
    (addModelToKitfile stat kf paths).isSome = true ↔
      paths.length ≤ 1 ∨ ∀ p ∈ paths, (stat p).isSome = true := by
  match paths with
  | [] => simp [addModelToKitfile]
  | [p] => simp [addModelToKitfile]
  | p₀ :: p₁ :: rest =>
    have hscan := modelScan_isSome stat (p₀ :: p₁ :: rest) ("", 0, 0)
    cases hs : modelScan stat (p₀ :: p₁ :: rest) ("", 0, 0) with
    | none =>
      rw [hs] at hscan
      have hnall : ¬ ∀ p ∈ (p₀ :: p₁ :: rest), (stat p).isSome = true := by
        intro hall
        have hfalse := hscan.mpr hall
        simp at hfalse
      simp only [addModelToKitfile, hs]
      simp only [Option.isSome_none, Bool.false_eq_true, false_iff]
      intro hor
      rcases hor with hl | hall
      · simp at hl
      · exact hnall hall
    | some triple =>
      obtain ⟨lf, ls, total⟩ := triple
      rw [hs] at hscan
      simp only [addModelToKitfile, hs]
      split <;> simp_all

theorem addModel_model_isSome {stat : String → Option Int} {kf kf' : KitFile}
    {paths : List String} (hne : paths ≠ [])
    (hadd : addModelToKitfile stat kf paths = some kf') :
    kf'.Model.isSome = true := by
  match paths with
  | [] => exact absurd rfl hne
  | [p] =>
    simp only [addModelToKitfile, Option.some.injEq] at hadd
    subst hadd
    rfl
  | p₀ :: p₁ :: rest =>
    cases hs : modelScan stat (p₀ :: p₁ :: rest) ("", 0, 0) with
    | none =>
      simp only [addModelToKitfile, hs] at hadd
      exact Option.noConfusion hadd
    | some triple =>
      obtain ⟨lf, ls, total⟩ := triple
      simp only [addModelToKitfile, hs] at hadd
      split at hadd <;>
        (simp only [Option.some.injEq] at hadd; subst hadd; rfl)

theorem modelStage_isSome (stat : String → Option Int) (st : GenState) :
    (modelStage stat st).isSome = true ↔
      st.modelFiles.length ≤ 1 ∨ ∀ p ∈ st.modelFiles, (stat p).isSome = true := by
  unfold modelStage
  split
  case isTrue hlen =>
    have hiff := addModel_isSome stat st.kf st.modelFiles
    cases hadd : addModelToKitfile stat st.kf st.modelFiles with
    | none =>
      rw [hadd] at hiff
      simpa using hiff
    | some kfm =>
      rw [hadd] at hiff
      have hMod := addModel_model_isSome
        (List.ne_nil_of_length_pos (by omega : 0 < st.modelFiles.length)) hadd
      cases hOM : kfm.Model with
      | none => rw [hOM] at hMod; simp at hMod
      | some m =>
        simp only [hadd, hOM]
        simpa using hiff
  case isFalse hlen =>
    have : st.modelFiles.length ≤ 1 := by omega
    simp [this]

/-- C8: generation returns a terminal error exactly when the root directory
cannot be read, or when at least two model candidates force the size
comparison and a stat fails on one of them; every other failure is
recovered locally and a complete manifest is returned. -/
theorem terminal_error_characterization (isKit : String → Bool) (stat : String → Option Int)
    (ds : List RootEntry) (pkg : Option Package) :
    GenerateKitfile isKit stat none pkg = none ∧
    ((GenerateKitfile isKit stat (some ds) pkg).isSome = true ↔
      (passState isKit ds pkg).modelFiles.length ≤ 1 ∨
        ∀ p ∈ (passState isKit ds pkg).modelFiles, (stat p).isSome = true) := by
  constructor
  · rfl
  · have hms := modelStage_isSome stat (passState isKit ds pkg)
    cases hcase : modelStage stat (passState isKit ds pkg) with
    | none =>
      rw [hcase] at hms
      simp only [GenerateKitfile, hcase]
      simpa using hms
    | some kfm =>
      rw [hcase] at hms
      simp only [GenerateKitfile, hcase]
      simpa using hms

/-- Witness for C8: a root with two model candidates where one stat fails
aborts generation, while the same root with working stats succeeds. -/
theorem terminal_error_characterization_witness :
    GenerateKitfile (fun _ => false) (fun p => if p = "a.gguf" then some 100 else none)
        (some twoModelRoot) none = none := by
  have h := (terminal_error_characterization (fun _ => false)
    (fun p => if p = "a.gguf" then some 100 else none) twoModelRoot none).2
  have hnot : ¬((passState (fun _ => false) twoModelRoot none).modelFiles.length ≤ 1 ∨
      ∀ p ∈ (passState (fun _ => false) twoModelRoot none).modelFiles,
        (if p = "a.gguf" then some (100 : Int) else none).isSome = true) := by decide
  cases hgen : GenerateKitfile (fun _ => false)
      (fun p => if p = "a.gguf" then some 100 else none) (some twoModelRoot) none with
  | none => rfl
  | some out =>
    exfalso
    exact hnot (h.mp (by rw [hgen]; rfl))

/-! ### C9: metadata placement after the pass -/

/-- C9: when the root pass accumulated at least one model candidate, the
pending top-level metadata files are appended to Model.Parts (after the
parts the assembler chose), in encounter order; when no candidate was
accumulated anywhere in the tree, each pending metadata file becomes its
own Dataset entry appended in encounter order. -/
theorem metadata_placement (isKit : String → Bool) (stat : String → Option Int)
    (ds : List RootEntry) (pkg : Option Package) (out : KitFile)
    (h : GenerateKitfile isKit stat (some ds) pkg = some out) :
    ((passState isKit ds pkg).modelFiles ≠ [] →
      ∃ kfA mA, addModelToKitfile stat (passState isKit ds pkg).kf
          (passState isKit ds pkg).modelFiles = some kfA ∧
        kfA.Model = some mA ∧
        ∃ m, out.Model = some m ∧
          m.Parts = mA.Parts ++
            (passState isKit ds pkg).metadataPaths.map (fun p => { Path := p })) ∧
    ((passState isKit ds pkg).modelFiles = [] →
      out.DataSets.map (fun d => d.Path) =
        (passState isKit ds pkg).kf.DataSets.map (fun d => d.Path) ++
          (passState isKit ds pkg).metadataPaths) := by
  obtain ⟨kfPre, hms, hout⟩ := GenerateKitfile_decomp h
  constructor
  · intro hne
    unfold modelStage at hms
    rw [if_pos (List.length_pos.mpr hne)] at hms
    cases hadd : addModelToKitfile stat (passState isKit ds pkg).kf
        (passState isKit ds pkg).modelFiles with
    | none => rw [hadd] at hms; exact Option.noConfusion hms
    | some kfA =>
      rw [hadd] at hms
      cases hOM : kfA.Model with
      | none =>
        simp only [hOM] at hms
        exact Option.noConfusion hms
      | some mA =>
        refine ⟨kfA, mA, rfl, hOM, ?_⟩
        simp only [hOM, Option.some.injEq] at hms
        have hPreM : kfPre.Model = some { mA with Parts := mA.Parts ++
            (passState isKit ds pkg).metadataPaths.map (fun p => { Path := p }) } := by
          rw [← hms]
        have hcm := (catchallStage_frame (passState isKit ds pkg) kfPre).1
        have hal := attachLicense_model_path (catchallStage (passState isKit ds pkg) kfPre)
          (passState isKit ds pkg).detectedLicenseType
        subst hout
        cases hOut : (attachLicense (catchallStage (passState isKit ds pkg) kfPre)
            (passState isKit ds pkg).detectedLicenseType).Model with
        | none =>
          exfalso
          have hs := hal.2.2.2
          rw [hOut, hcm, hPreM] at hs
          simp at hs
        | some m =>
          refine ⟨m, rfl, ?_⟩
          have hq := hal.2.2.1
          rw [hOut, hcm, hPreM] at hq
          simpa using hq
  · intro hnil
    unfold modelStage at hms
    rw [hnil] at hms
    simp only [List.length_nil, Nat.lt_irrefl, if_false, Option.some.injEq] at hms
    have hPreD : kfPre.DataSets = (passState isKit ds pkg).kf.DataSets ++
        (passState isKit ds pkg).metadataPaths.map (fun p => { Path := p }) := by
      rw [← hms]
    have hcd := (catchallStage_frame (passState isKit ds pkg) kfPre).2.1
    subst hout
    rw [attachLicense_dataset_paths, hcd, hPreD]
    simp [List.map_map, Function.comp_def]

/-- Witness for C9: a root with a model file and a metadata file appends the
metadata file as the sole Model part. -/
theorem metadata_placement_witness :
    ∃ out, GenerateKitfile (fun _ => false) (fun _ => some 7)
        (some [{ name := "m.onnx", kind := .file none },
               { name := "cfg.json", kind := .file none }]) none = some out ∧
      ∃ m, out.Model = some m ∧ m.Parts = [{ Path := "cfg.json" }] := by
  have h : GenerateKitfile (fun _ => false) (fun _ => some 7)
      (some [{ name := "m.onnx", kind := .file none },
             { name := "cfg.json", kind := .file none }]) none =
      some { ManifestVersion := "1.0.0",
             Model := some { Path := "m.onnx", Name := "m",
                             Parts := [{ Path := "cfg.json" }] } } := by decide
  obtain ⟨kfA, mA, hadd, hA, m, hm, hparts⟩ :=
    (metadata_placement (fun _ => false) (fun _ => some 7)
      [{ name := "m.onnx", kind := .file none },
       { name := "cfg.json", kind := .file none }] none _ h).1 (by decide)
  have hcomp : addModelToKitfile (fun _ => some 7)
      (passState (fun _ => false) [{ name := "m.onnx", kind := .file none },
        { name := "cfg.json", kind := .file none }] none).kf
      (passState (fun _ => false) [{ name := "m.onnx", kind := .file none },
        { name := "cfg.json", kind := .file none }] none).modelFiles =
      some { ManifestVersion := "1.0.0",
             Model := some { Path := "m.onnx", Name := "m" } } := by decide
  rw [hcomp] at hadd
  have hkfA : kfA = { ManifestVersion := "1.0.0", Model := some { Path := "m.onnx", Name := "m" } } := (Option.some.inj hadd).symm
  subst hkfA
  have hmA : (some { Path := "m.onnx", Name := "m" } : Option Model) = some mA := hA
  have hmA' : mA = { Path := "m.onnx", Name := "m" } := (Option.some.inj hmA).symm
  subst hmA'
  refine ⟨_, h, m, hm, ?_⟩
  rw [hparts]
  decide

/-! ### C10: shape of the Code section -/

theorem addDir_code (kf : KitFile) (nm : String) (l : Option (List SubEntry)) :
    ∀ c ∈ (addDirToKitfile kf nm l).1.Code, c ∈ kf.Code ∨ c.Path = nm := by
  intro c hc
  unfold addDirToKitfile at hc
  split at hc
  · exact Or.inl hc
  · split at hc
    · rcases List.mem_append.mp hc with hin | hin
      · exact Or.inl hin
      · simp only [List.mem_singleton] at hin
        subst hin
        exact Or.inr rfl
    · cases l with
      | none => exact Or.inl hc
      | some entries =>
        simp only [] at hc
        split at hc
        · exact Or.inl hc
        · split at hc <;> exact Or.inl hc

theorem processRootEntry_shape (isKit : String → Bool) (st : GenState) (d : RootEntry) :
    (∀ c ∈ (processRootEntry isKit st d).kf.Code,
      c ∈ st.kf.Code ∨ (c.Path = d.name ∧ ∃ l, d.kind = RootKind.dir l)) ∧
    (∀ p ∈ (processRootEntry isKit st d).unprocessedDirPaths,
      p ∈ st.unprocessedDirPaths ∨ (p = d.name ∧ ∃ l, d.kind = RootKind.dir l)) := by
  obtain ⟨nm, kind⟩ := d
  unfold processRootEntry
  dsimp only
  by_cases hkit : isKit nm = true
  · rw [if_pos hkit]
    exact ⟨fun c hc => Or.inl hc, fun p hp => Or.inl hp⟩
  · rw [if_neg hkit]
    cases kind with
    | dir l =>
      dsimp only
      constructor
      · intro c hc
        rcases addDir_code st.kf nm l c hc with hin | hpath
        · exact Or.inl hin
        · exact Or.inr ⟨hpath, l, rfl⟩
      · intro p hp
        by_cases herr : (addDirToKitfile st.kf nm l).2.2.isSome = true
        · rw [if_pos herr] at hp
          rcases List.mem_append.mp hp with hin | hin
          · exact Or.inl hin
          · simp only [List.mem_singleton] at hin
            exact Or.inr ⟨hin, l, rfl⟩
        · rw [if_neg herr] at hp
          exact Or.inl hp
    | file lic =>
      dsimp only
      constructor
      · intro c hc
        refine Or.inl ?_
        by_cases hr : goStartsWith (goToLower nm) "readme" = true
        · rw [if_pos hr] at hc
          exact hc
        · rw [if_neg hr] at hc
          by_cases hl : goStartsWith (goToLower nm) "license" = true
          · rw [if_pos hl] at hc
            exact hc
          · rw [if_neg hl] at hc
            split at hc <;> exact hc
      · intro p hp
        refine Or.inl ?_
        by_cases hr : goStartsWith (goToLower nm) "readme" = true
        · rw [if_pos hr] at hp
          exact hp
        · rw [if_neg hr] at hp
          by_cases hl : goStartsWith (goToLower nm) "license" = true
          · rw [if_pos hl] at hp
            exact hp
          · rw [if_neg hl] at hp
            split at hp <;> exact hp

theorem pass_shape (isKit : String → Bool) (ds : List RootEntry) (st : GenState) :
    (∀ c ∈ (ds.foldl (processRootEntry isKit) st).kf.Code,
      c ∈ st.kf.Code ∨ ∃ e ∈ ds, c.Path = e.name ∧ ∃ l, e.kind = RootKind.dir l) ∧
    (∀ p ∈ (ds.foldl (processRootEntry isKit) st).unprocessedDirPaths,
      p ∈ st.unprocessedDirPaths ∨ ∃ e ∈ ds, p = e.name ∧ ∃ l, e.kind = RootKind.dir l) := by
  induction ds generalizing st with
  | nil => exact ⟨fun c hc => Or.inl hc, fun p hp => Or.inl hp⟩
  | cons d rest ih =>
    rw [List.foldl_cons]
    obtain ⟨ihc, ihu⟩ := ih (processRootEntry isKit st d)
    obtain ⟨stc, stu⟩ := processRootEntry_shape isKit st d
    constructor
    · intro c hc
      rcases ihc c hc with hin | ⟨e, he, hname, l, hkind⟩
      · rcases stc c hin with hin' | ⟨hpath, l, hkind⟩
        · exact Or.inl hin'
        · exact Or.inr ⟨d, List.mem_cons_self _ _, hpath, l, hkind⟩
      · exact Or.inr ⟨e, List.mem_cons_of_mem _ he, hname, l, hkind⟩
    · intro p hp
      rcases ihu p hp with hin | ⟨e, he, hname, l, hkind⟩
      · rcases stu p hin with hin' | ⟨hpath, l, hkind⟩
        · exact Or.inl hin'
        · exact Or.inr ⟨d, List.mem_cons_self _ _, hpath, l, hkind⟩
      · exact Or.inr ⟨e, List.mem_cons_of_mem _ he, hname, l, hkind⟩

/-- C10: the suffix classifier can never return the Code category, and every
Code entry of a generated manifest has as its path either the literal
catch-all "." or the name of an immediate subdirectory of the root. -/
theorem code_entries_shape (isKit : String → Bool) (stat : String → Option Int)
    (ds : List RootEntry) (pkg : Option Package) (out : KitFile)
    (h : GenerateKitfile isKit stat (some ds) pkg = some out) :
    (∀ f : String, determineFileType f ≠ .code) ∧
    (∀ c ∈ out.Code, c.Path = "." ∨
      ∃ e ∈ ds, c.Path = e.name ∧ ∃ l, e.kind = RootKind.dir l) := by
  constructor
  · intro f
    unfold determineFileType
    by_cases a : anySuffix f modelWeightsSuffixes <;>
      by_cases b : anySuffix f metadataSuffixes <;>
        by_cases c : anySuffix f docsSuffixes <;>
          by_cases d : anySuffix f datasetSuffixes <;>
            simp [a, b, c, d]
  · intro c hc
    obtain ⟨kfPre, hms, hout⟩ := GenerateKitfile_decomp h
    have hframe := (modelStage_frame hms).1
    obtain ⟨passc, passu⟩ := pass_shape isKit ds
      { kf := { ManifestVersion := "1.0.0", Package := pkg.getD {} } }
    subst hout
    have hpaths := attachLicense_code_paths (catchallStage (passState isKit ds pkg) kfPre)
      (passState isKit ds pkg).detectedLicenseType
    have hcmem : c.Path ∈ (catchallStage (passState isKit ds pkg) kfPre).Code.map
        (fun c => c.Path) := by
      rw [← hpaths]
      exact List.mem_map_of_mem _ hc
    obtain ⟨c', hc', hceq⟩ := List.mem_map.mp hcmem
    unfold catchallStage at hc'
    split at hc'
    · simp only [List.mem_singleton] at hc'
      subst hc'
      exact Or.inl hceq.symm
    · rcases List.mem_append.mp hc' with hin | hin
      · rw [hframe] at hin
        rcases passc c' hin with hin' | ⟨e, he, hname, l, hkind⟩
        · simp at hin'
        · exact Or.inr ⟨e, he, hceq ▸ hname, l, hkind⟩
      · obtain ⟨p, hp, hpe⟩ := List.mem_map.mp hin
        rcases passu p hp with hin' | ⟨e, he, hname, l, hkind⟩
        · simp at hin'
        · refine Or.inr ⟨e, he, ?_, l, hkind⟩
          rw [← hceq, ← hpe, ← hname]

/-- Witness for C10: applying the invariant to the mixed-directory root, the
single Code entry "sub" is the name of a root subdirectory. -/
theorem code_entries_shape_witness :
    ∃ out, GenerateKitfile (fun _ => false) (fun _ => some 5) (some mixedRoot) none = some out ∧
      determineFileType "main.go" ≠ .code ∧
      ∀ c ∈ out.Code, c.Path = "." ∨
        ∃ e ∈ mixedRoot, c.Path = e.name ∧ ∃ l, e.kind = RootKind.dir l := by
  have h : GenerateKitfile (fun _ => false) (fun _ => some 5) (some mixedRoot) none =
      some { ManifestVersion := "1.0.0", Code := [{ Path := "sub" }], Model := some { Path := "sub/m.gguf", Name := "m" } } := by decide
  obtain ⟨h1, h2⟩ := code_entries_shape (fun _ => false) (fun _ => some 5) mixedRoot none _ h
  exact ⟨_, h, h1 "main.go", h2⟩

/-! ### C1: model assembler size election -/

/-- The byte size `os.Stat` reports for a path, with `0` standing in for a
failed stat (only used where every stat is known to succeed). -/
def szOf (stat : String → Option Int) (p : String) : Int :=
  (stat p).getD 0

theorem wrap64_eq {x : Int} (h1 : -9223372036854775808 ≤ x)
    (h2 : x < 9223372036854775808) : wrap64 x = x := by
  unfold wrap64
  omega

theorem foldl_max_mem (l : List Int) (a : Int) : l.foldl max a = a ∨ l.foldl max a ∈ l := by
  induction l generalizing a with
  | nil => exact Or.inl rfl
  | cons x xs ih =>
    rw [List.foldl_cons]
    rcases ih (max a x) with h | h
    · rw [h]
      rcases max_choice a x with hm | hm
      · exact Or.inl hm
      · rw [hm]
        exact Or.inr (List.mem_cons_self x xs)
    · exact Or.inr (List.mem_cons_of_mem _ h)

theorem le_foldl_max (l : List Int) (a : Int) :
    a ≤ l.foldl max a ∧ ∀ x ∈ l, x ≤ l.foldl max a := by
  induction l generalizing a with
  | nil => exact ⟨le_refl a, by simp⟩
  | cons y ys ih =>
    rw [List.foldl_cons]
    obtain ⟨h1, h2⟩ := ih (max a y)
    refine ⟨le_trans (le_max_left a y) h1, ?_⟩
    intro x hx
    rcases List.mem_cons.mp hx with rfl | hx
    · exact le_trans (le_max_right a x) h1
    · exact h2 x hx

/-- Characterization of the stat loop of `addModelToKitfile`: when every stat
succeeds with non-negative sizes and the running total cannot overflow,
the loop returns the first path whose size attains the running maximum
and strictly exceeds the initial bound, the maximum itself, and the size
total. -/
theorem modelScan_spec (stat : String → Option Int) (paths : List String)
    (lf0 : String) (ls0 acc : Int)
    (hsome : ∀ p ∈ paths, (stat p).isSome = true)
    (hnn : ∀ p ∈ paths, 0 ≤ szOf stat p)
    (hls0 : 0 ≤ ls0) (hacc : 0 ≤ acc)
    (hbound : acc + (paths.map (szOf stat)).sum < 9223372036854775808) :
    modelScan stat paths (lf0, ls0, acc) =
      some ((paths.find? (fun p => decide (ls0 < szOf stat p) &&
                decide (szOf stat p = (paths.map (szOf stat)).foldl max ls0))).getD lf0,
            (paths.map (szOf stat)).foldl max ls0,
            acc + (paths.map (szOf stat)).sum) := by
  induction paths generalizing lf0 ls0 acc with
  | nil => simp [modelScan]
  | cons p rest ih =>
    have hpS : (stat p).isSome = true := hsome p (List.mem_cons_self _ _)
    obtain ⟨s, hs⟩ := Option.isSome_iff_exists.mp hpS
    have hsz : szOf stat p = s := by simp [szOf, hs]
    have hnnp : 0 ≤ s := hsz ▸ hnn p (List.mem_cons_self _ _)
    have hrest_nn : 0 ≤ (rest.map (szOf stat)).sum := by
      apply List.sum_nonneg
      intro x hx
      obtain ⟨q, hq, rfl⟩ := List.mem_map.mp hx
      exact hnn q (List.mem_cons_of_mem _ hq)
    have hsum_cons : ((p :: rest).map (szOf stat)).sum = s + (rest.map (szOf stat)).sum := by
      simp [hsz]
    rw [hsum_cons] at hbound
    have hwrap : wrap64 (acc + s) = acc + s := by
      apply wrap64_eq <;> omega
    have hsome' : ∀ q ∈ rest, (stat q).isSome = true :=
      fun q hq => hsome q (List.mem_cons_of_mem _ hq)
    have hnn' : ∀ q ∈ rest, 0 ≤ szOf stat q :=
      fun q hq => hnn q (List.mem_cons_of_mem _ hq)
    simp only [modelScan, hs]
    by_cases hgt : s > ls0
    · rw [if_pos hgt, hwrap]
      rw [ih p s (acc + s) hsome' hnn' (le_trans hls0 (le_of_lt hgt)) (by omega) (by omega)]
      have hmax : ((p :: rest).map (szOf stat)).foldl max ls0 =
          (rest.map (szOf stat)).foldl max s := by
        simp only [List.map_cons, List.foldl_cons, hsz]
        rw [max_eq_right (le_of_lt hgt)]
      have hM := (le_foldl_max (rest.map (szOf stat)) s).1
      by_cases hEq : s = (rest.map (szOf stat)).foldl max s
      · have hpredp : (decide (ls0 < szOf stat p) &&
            decide (szOf stat p = ((p :: rest).map (szOf stat)).foldl max ls0)) = true := by
          rw [hsz, hmax, ← hEq]
          simp [hgt]
        have hfind_cons : (p :: rest).find? (fun q => decide (ls0 < szOf stat q) &&
            decide (szOf stat q = ((p :: rest).map (szOf stat)).foldl max ls0)) = some p :=
          @List.find?_cons_of_pos _ (fun q => decide (ls0 < szOf stat q) &&
            decide (szOf stat q = ((p :: rest).map (szOf stat)).foldl max ls0)) p rest hpredp
        have hfind_rest : rest.find? (fun q => decide (s < szOf stat q) &&
            decide (szOf stat q = (rest.map (szOf stat)).foldl max s)) = none := by
          rw [List.find?_eq_none]
          intro q hq
          simp only [Bool.and_eq_true, decide_eq_true_eq, not_and]
          intro hlt hqe
          rw [← hEq] at hqe
          omega
        rw [hfind_rest, hfind_cons, hmax]
        simp only [Option.getD_some, Option.getD_none]
        rw [hsum_cons]
        simp [add_assoc]
      · have hlt : s < (rest.map (szOf stat)).foldl max s := lt_of_le_of_ne hM hEq
        have hpredeq : (fun q => decide (ls0 < szOf stat q) &&
              decide (szOf stat q = (rest.map (szOf stat)).foldl max s)) =
            (fun q => decide (s < szOf stat q) &&
              decide (szOf stat q = (rest.map (szOf stat)).foldl max s)) := by
          funext q
          by_cases hq : szOf stat q = (rest.map (szOf stat)).foldl max s
          · have h1 : ls0 < (rest.map (szOf stat)).foldl max s := lt_trans hgt hlt
            rw [hq]
            simp [h1, hlt]
          · simp [hq]
        have hpredp : ¬ (decide (ls0 < szOf stat p) &&
            decide (szOf stat p = ((p :: rest).map (szOf stat)).foldl max ls0)) = true := by
          rw [hsz, hmax]
          simp [hEq]
        have hfind_cons : (p :: rest).find? (fun q => decide (ls0 < szOf stat q) &&
            decide (szOf stat q = ((p :: rest).map (szOf stat)).foldl max ls0)) =
            rest.find? (fun q => decide (ls0 < szOf stat q) &&
              decide (szOf stat q = (rest.map (szOf stat)).foldl max s)) := by
          rw [@List.find?_cons_of_neg _ (fun q => decide (ls0 < szOf stat q) &&
            decide (szOf stat q = ((p :: rest).map (szOf stat)).foldl max ls0)) p rest hpredp, hmax]
        have hattain : (rest.map (szOf stat)).foldl max s ∈ rest.map (szOf stat) := by
          rcases foldl_max_mem (rest.map (szOf stat)) s with h0 | hmem
          · exact absurd h0.symm hEq
          · exact hmem
        obtain ⟨q, hq, hqs⟩ := List.mem_map.mp hattain
        have hfsome : (rest.find? (fun q => decide (s < szOf stat q) &&
            decide (szOf stat q = (rest.map (szOf stat)).foldl max s))).isSome = true := by
          rw [List.find?_isSome]
          refine ⟨q, hq, ?_⟩
          rw [hqs]
          simp [hlt]
        obtain ⟨r, hr⟩ := Option.isSome_iff_exists.mp hfsome
        rw [hfind_cons, hpredeq, hr, hmax]
        simp only [Option.getD_some]
        rw [hsum_cons]
        simp [add_assoc]
    · rw [if_neg hgt, hwrap]
      rw [ih lf0 ls0 (acc + s) hsome' hnn' hls0 (by omega) (by omega)]
      have hle : s ≤ ls0 := not_lt.mp hgt
      have hmax : ((p :: rest).map (szOf stat)).foldl max ls0 =
          (rest.map (szOf stat)).foldl max ls0 := by
        simp only [List.map_cons, List.foldl_cons, hsz]
        rw [max_eq_left hle]
      have hpredp : ¬ (decide (ls0 < szOf stat p) &&
          decide (szOf stat p = ((p :: rest).map (szOf stat)).foldl max ls0)) = true := by
        have hn : ¬ ls0 < s := hgt
        rw [hsz]
        simp [hn]
      have hfind_cons : (p :: rest).find? (fun q => decide (ls0 < szOf stat q) &&
          decide (szOf stat q = ((p :: rest).map (szOf stat)).foldl max ls0)) =
          rest.find? (fun q => decide (ls0 < szOf stat q) &&
            decide (szOf stat q = (rest.map (szOf stat)).foldl max ls0)) := by
        rw [@List.find?_cons_of_neg _ (fun q => decide (ls0 < szOf stat q) &&
          decide (szOf stat q = ((p :: rest).map (szOf stat)).foldl max ls0)) p rest hpredp, hmax]
      rw [hfind_cons, hmax, hsum_cons]
      simp [add_assoc]

/-- C1: with two or more model candidates (distinct paths, successful
non-negative stats, and a total size that does not overflow `int64`), the
Model Assembler computes the integer mean of the sizes; when the largest
size strictly exceeds mean + mean/2, the first-encountered candidate of
that size becomes the primary Model path and every other candidate
becomes a Part in original discovery order; otherwise the first candidate
in discovery order is the primary and the remaining candidates become
Parts in order. -/
theorem model_assembler_election (stat : String → Option Int) (kf : KitFile)
    (paths : List String) (hlen : 2 ≤ paths.length) (hnd : paths.Nodup)
    (hsome : ∀ p ∈ paths, (stat p).isSome = true)
    (hnn : ∀ p ∈ paths, 0 ≤ szOf stat p)
    (hbound : (paths.map (szOf stat)).sum < 9223372036854775808) :
    ∃ kf', addModelToKitfile stat kf paths = some kf' ∧ ∃ m, kf'.Model = some m ∧
      ((paths.map (szOf stat)).foldl max 0 >
          Int.tdiv (paths.map (szOf stat)).sum (paths.length : Int) +
            Int.tdiv (Int.tdiv (paths.map (szOf stat)).sum (paths.length : Int)) 2 →
        paths.find? (fun p => decide (szOf stat p = (paths.map (szOf stat)).foldl max 0)) =
          some m.Path ∧
        m.Parts = (paths.erase m.Path).map (fun q => { Path := q })) ∧
      (¬ ((paths.map (szOf stat)).foldl max 0 >
          Int.tdiv (paths.map (szOf stat)).sum (paths.length : Int) +
            Int.tdiv (Int.tdiv (paths.map (szOf stat)).sum (paths.length : Int)) 2) →
        paths.head? = some m.Path ∧
        m.Parts = paths.tail.map (fun q => { Path := q })) := by
  rcases paths with _ | ⟨p₀, _ | ⟨p₁, rest⟩⟩
  · simp at hlen
  · simp at hlen
  have hsum_nn : 0 ≤ ((p₀ :: p₁ :: rest).map (szOf stat)).sum := by
    apply List.sum_nonneg
    intro x hx
    obtain ⟨q, hq, rfl⟩ := List.mem_map.mp hx
    exact hnn q hq
  have hn2 : (2 : Int) ≤ (((p₀ :: p₁ :: rest).length : Nat) : Int) := by
    simp only [List.length_cons]
    omega
  have havgt_nn : 0 ≤ Int.tdiv ((p₀ :: p₁ :: rest).map (szOf stat)).sum
      (((p₀ :: p₁ :: rest).length : Nat) : Int) :=
    Int.tdiv_nonneg hsum_nn (by omega)
  have htd2 : Int.tdiv (Int.tdiv ((p₀ :: p₁ :: rest).map (szOf stat)).sum
      (((p₀ :: p₁ :: rest).length : Nat) : Int)) 2 =
      (Int.tdiv ((p₀ :: p₁ :: rest).map (szOf stat)).sum
        (((p₀ :: p₁ :: rest).length : Nat) : Int)) / 2 :=
    Int.tdiv_eq_ediv havgt_nn (by norm_num)
  have hhalf_le : (Int.tdiv ((p₀ :: p₁ :: rest).map (szOf stat)).sum
      (((p₀ :: p₁ :: rest).length : Nat) : Int)) / 2 ≤
      Int.tdiv ((p₀ :: p₁ :: rest).map (szOf stat)).sum
        (((p₀ :: p₁ :: rest).length : Nat) : Int) :=
    Int.ediv_le_self 2 havgt_nn
  have hhalf_nn : 0 ≤ (Int.tdiv ((p₀ :: p₁ :: rest).map (szOf stat)).sum
      (((p₀ :: p₁ :: rest).length : Nat) : Int)) / 2 :=
    Int.ediv_nonneg havgt_nn (by norm_num)
  have h2q : 2 * Int.tdiv ((p₀ :: p₁ :: rest).map (szOf stat)).sum
      (((p₀ :: p₁ :: rest).length : Nat) : Int) ≤
      ((p₀ :: p₁ :: rest).map (szOf stat)).sum := by
    rw [Int.tdiv_eq_ediv hsum_nn (by omega)]
    have hqn : ((p₀ :: p₁ :: rest).map (szOf stat)).sum /
        (((p₀ :: p₁ :: rest).length : Nat) : Int) * (((p₀ :: p₁ :: rest).length : Nat) : Int) ≤
        ((p₀ :: p₁ :: rest).map (szOf stat)).sum :=
      Int.ediv_mul_le _ (by omega)
    have hq_nn : 0 ≤ ((p₀ :: p₁ :: rest).map (szOf stat)).sum /
        (((p₀ :: p₁ :: rest).length : Nat) : Int) :=
      Int.ediv_nonneg hsum_nn (by omega)
    have hq2 := mul_le_mul_of_nonneg_left hn2 hq_nn
    linarith
  have hwrapthr : wrap64 (Int.tdiv ((p₀ :: p₁ :: rest).map (szOf stat)).sum
        (((p₀ :: p₁ :: rest).length : Nat) : Int) +
      Int.tdiv (Int.tdiv ((p₀ :: p₁ :: rest).map (szOf stat)).sum
        (((p₀ :: p₁ :: rest).length : Nat) : Int)) 2) =
      Int.tdiv ((p₀ :: p₁ :: rest).map (szOf stat)).sum
        (((p₀ :: p₁ :: rest).length : Nat) : Int) +
      Int.tdiv (Int.tdiv ((p₀ :: p₁ :: rest).map (szOf stat)).sum
        (((p₀ :: p₁ :: rest).length : Nat) : Int)) 2 := by
    rw [htd2]
    apply wrap64_eq
    · linarith
    · linarith
  have hspec := modelScan_spec stat (p₀ :: p₁ :: rest) "" 0 0 hsome hnn le_rfl le_rfl
    (by simpa using hbound)
  simp only [addModelToKitfile, hspec, zero_add]
  rw [hwrapthr]
  by_cases hdom : ((p₀ :: p₁ :: rest).map (szOf stat)).foldl max 0 >
      Int.tdiv ((p₀ :: p₁ :: rest).map (szOf stat)).sum
        (((p₀ :: p₁ :: rest).length : Nat) : Int) +
      Int.tdiv (Int.tdiv ((p₀ :: p₁ :: rest).map (szOf stat)).sum
        (((p₀ :: p₁ :: rest).length : Nat) : Int)) 2
  · rw [if_pos hdom]
    refine ⟨_, rfl, _, rfl, ?_, ?_⟩
    · intro _
      have hMpos : 0 < ((p₀ :: p₁ :: rest).map (szOf stat)).foldl max 0 := by
        rw [htd2] at hdom
        omega
      have hpredeq : (fun p => decide (0 < szOf stat p) &&
            decide (szOf stat p = ((p₀ :: p₁ :: rest).map (szOf stat)).foldl max 0)) =
          (fun p => decide (szOf stat p = ((p₀ :: p₁ :: rest).map (szOf stat)).foldl max 0)) := by
        funext q
        by_cases hq : szOf stat q = ((p₀ :: p₁ :: rest).map (szOf stat)).foldl max 0
        · rw [hq, decide_eq_true hMpos]
          simp only [Bool.true_and]
        · rw [decide_eq_false hq]
          simp only [Bool.and_false]
      have hattain : ((p₀ :: p₁ :: rest).map (szOf stat)).foldl max 0 ∈
          (p₀ :: p₁ :: rest).map (szOf stat) := by
        rcases foldl_max_mem ((p₀ :: p₁ :: rest).map (szOf stat)) 0 with h0 | hmem
        · omega
        · exact hmem
      obtain ⟨q, hq, hqs⟩ := List.mem_map.mp hattain
      have hfsome : ((p₀ :: p₁ :: rest).find? (fun p =>
          decide (szOf stat p = ((p₀ :: p₁ :: rest).map (szOf stat)).foldl max 0))).isSome
          = true := by
        rw [List.find?_isSome]
        exact ⟨q, hq, decide_eq_true hqs⟩
      obtain ⟨r, hr⟩ := Option.isSome_iff_exists.mp hfsome
      constructor
      · rw [hr, hpredeq, hr]
        simp
      · rw [hpredeq, hr]
        simp only [Option.getD_some]
        rw [List.Nodup.erase_eq_filter hnd]
        congr 1
        apply List.filter_congr
        intro x _
        by_cases hx : x = r <;> simp [hx]
    · intro hcon
      exact absurd hdom hcon
  · rw [if_neg hdom]
    refine ⟨_, rfl, _, rfl, ?_, ?_⟩
    · intro hcon
      exact absurd hcon hdom
    · intro _
      exact ⟨rfl, rfl⟩

/-- Stat function giving candidate sizes [100, 100, 310]. -/
def statSizesA : String → Option Int := fun p =>
  if p = "a.gguf" then some 100 else if p = "b.gguf" then some 100
  else if p = "c.gguf" then some 310 else none

/-- Stat function giving candidate sizes [100, 110, 120]. -/
def statSizesB : String → Option Int := fun p =>
  if p = "a.gguf" then some 100 else if p = "b.gguf" then some 110
  else if p = "c.gguf" then some 120 else none

/-- Witness for C1 at the two size vectors of the claim: [100, 100, 310]
elects the 310-byte file with the two 100-byte files as Parts in original
order, and [100, 110, 120] elects the first candidate in discovery order
with the rest as Parts in order. -/
theorem model_assembler_election_witness :
    (∃ kf', addModelToKitfile statSizesA {} ["a.gguf", "b.gguf", "c.gguf"] = some kf' ∧
       ∃ m, kf'.Model = some m ∧ m.Path = "c.gguf" ∧
         m.Parts = [{ Path := "a.gguf" }, { Path := "b.gguf" }]) ∧
    (∃ kf', addModelToKitfile statSizesB {} ["a.gguf", "b.gguf", "c.gguf"] = some kf' ∧
       ∃ m, kf'.Model = some m ∧ m.Path = "a.gguf" ∧
         m.Parts = [{ Path := "b.gguf" }, { Path := "c.gguf" }]) := by
  constructor
  · obtain ⟨kf', hadd, m, hM, hdomBr, _⟩ := model_assembler_election statSizesA {}
      ["a.gguf", "b.gguf", "c.gguf"] (by decide) (by decide) (by decide) (by decide) (by decide)
    obtain ⟨hfind, hparts⟩ := hdomBr (by decide)
    have hf : (["a.gguf", "b.gguf", "c.gguf"].find? (fun p => decide (szOf statSizesA p =
        (["a.gguf", "b.gguf", "c.gguf"].map (szOf statSizesA)).foldl max 0))) =
        some "c.gguf" := by decide
    rw [hf] at hfind
    have hpath : m.Path = "c.gguf" := (Option.some.inj hfind).symm
    refine ⟨kf', hadd, m, hM, hpath, ?_⟩
    rw [hparts, hpath]
    decide
  · obtain ⟨kf', hadd, m, hM, _, hfstBr⟩ := model_assembler_election statSizesB {}
      ["a.gguf", "b.gguf", "c.gguf"] (by decide) (by decide) (by decide) (by decide) (by decide)
    obtain ⟨hhead, hparts⟩ := hfstBr (by decide)
    have hpath : m.Path = "a.gguf" := (Option.some.inj hhead).symm
    refine ⟨kf', hadd, m, hM, hpath, ?_⟩
    rw [hparts]
    decide

end KitGen
